import Mathlib

/-!
Verification of the block-streaming DEM-derivative engine of
`src/preprocessing/compute_dem_derivatives.py`.

The embedding models the NumPy/SciPy float computations exactly (no
rounding): a cell value is either a finite number (rational for the grid
kernels, real for the transcendental TWI formula), `+inf`, `-inf`, or
`nan`, with IEEE-style propagation.  SciPy's `ndimage.convolve`
(`mode="nearest"`) is modelled as a clamped-index weighted sum over the
offsets whose kernel weight is non-zero: SciPy's `NI_Correlate` builds a
footprint of the weights with `|w| > DBL_EPSILON` and sums only those, so
zero-weight cells never touch the data (in particular a zero weight never
multiplies a NaN); a weights array with a zero-sized dimension makes
`convolve` raise `RuntimeError: filter weights array has incorrect
shape.` before touching the output.
-/

namespace ArqDem

/-- Exact model of an IEEE floating value without rounding: a finite
payload, one of the two infinities, or NaN. -/
inductive FV (α : Type) where
  | fin : α → FV α
  | inf : FV α
  | ninf : FV α
  | nan : FV α
deriving DecidableEq

namespace FV

variable {α : Type} [LinearOrderedField α]

/-- IEEE addition (exact payload arithmetic). -/
def add : FV α → FV α → FV α
  | nan, _ => nan
  | _, nan => nan
  | fin a, fin b => fin (a + b)
  | fin _, inf => inf
  | inf, fin _ => inf
  | fin _, ninf => ninf
  | ninf, fin _ => ninf
  | inf, inf => inf
  | ninf, ninf => ninf
  | inf, ninf => nan
  | ninf, inf => nan

/-- IEEE negation. -/
def neg : FV α → FV α
  | fin a => fin (-a)
  | inf => ninf
  | ninf => inf
  | nan => nan

/-- IEEE subtraction. -/
def sub (x y : FV α) : FV α := add x (neg y)

/-- Multiplication by a finite scalar (a kernel weight), IEEE rules:
`0 * inf = nan`, and anything times NaN is NaN. -/
def smul (q : α) : FV α → FV α
  | fin a => fin (q * a)
  | nan => nan
  | inf => if 0 < q then inf else if q < 0 then ninf else nan
  | ninf => if 0 < q then ninf else if q < 0 then inf else nan

/-- Test mirroring `np.isnan`. -/
def isNan : FV α → Bool
  | nan => true
  | _ => false

/-- Test mirroring `np.isinf` (true for either infinity). -/
def isInf : FV α → Bool
  | inf => true
  | ninf => true
  | _ => false

/-- The value is an ordinary finite number. -/
def isFin : FV α → Bool
  | fin _ => true
  | _ => false

/-- Comparison `v >= q` as NumPy evaluates it (False on NaN). -/
def geQ (v : FV α) (q : α) : Bool :=
  match v with
  | fin a => q ≤ a
  | inf => true
  | ninf => false
  | nan => false

/-- Comparison `v < q` as NumPy evaluates it (False on NaN). -/
def ltQ (v : FV α) (q : α) : Bool :=
  match v with
  | fin a => a < q
  | inf => false
  | ninf => true
  | nan => false

instance : Add (FV α) := ⟨add⟩

instance : Zero (FV α) := ⟨fin 0⟩

instance : AddCommMonoid (FV α) where
  add_assoc := by
    intro x y z
    show add (add x y) z = add x (add y z)
    cases x <;> cases y <;> cases z <;> simp [add] <;> ring
  zero_add := by
    intro x
    show add (fin 0) x = x
    cases x <;> simp [add]
  add_zero := by
    intro x
    show add x (fin 0) = x
    cases x <;> simp [add]
  add_comm := by
    intro x y
    show add x y = add y x
    cases x <;> cases y <;> simp [add] <;> ring
  nsmul := nsmulRec

/-- `fin` as an additive monoid homomorphism: exact sums of finite
values are finite. -/
def finHom : α →+ FV α where
  toFun := fin
  map_zero' := rfl
  map_add' := fun _ _ => rfl

end FV

/-!
## Block scheduler

`compute_curvatura` (lines 298-315) and `compute_tpi` (lines 360-385)
stripe the raster with the same loop:

    for y_off in range(0, rows, block):
        y_start = max(y_off - pad, 0)
        y_end   = min(y_off + block + pad, rows)
        ... convolve ...
        trim_top = y_off - y_start
        trim_bot = y_end - min(y_off + block, rows)
        result = result[trim_top : height - trim_bot]
        out_band.WriteArray(result, 0, y_off)

`mkPlan` records one iteration's quantities; the number of written rows
(`writeCount`) is the window height minus both trims, exactly as the
sliced array is written.
-/

/-- One stripe descriptor, fields exactly as the loop body computes them. -/
structure BlockPlan where
  y0 : ℤ
  readStart : ℤ
  readEnd : ℤ
  trimTop : ℤ
  trimBot : ℤ
  writeCount : ℤ
deriving DecidableEq

/-- The stripe plan for the stripe starting at row `y0`, translated from
the loop body of `compute_curvatura`/`compute_tpi` (`B` = `block`,
`H` = `pad`). -/
def mkPlan (R B H y0 : ℤ) : BlockPlan :=
  let rs := max (y0 - H) 0
  let re := min (y0 + B + H) R
  let tt := y0 - rs
  let tb := re - min (y0 + B) R
  { y0 := y0, readStart := rs, readEnd := re, trimTop := tt, trimBot := tb,
    writeCount := (re - rs) - tt - tb }

/-- Number of loop iterations of `range(0, R, B)` for `R, B > 0`. -/
def numBlocks (R B : ℕ) : ℕ := (R + B - 1) / B

/-- The ordered stripe plans produced by the block scheduler for `R`
total rows, stripe height `B` and halo `H`. -/
def blockPlans (R B H : ℕ) : List BlockPlan :=
  (List.range (numBlocks R B)).map
    (fun (k : ℕ) => mkPlan R B H ((k : ℤ) * (B : ℤ)))

/-- The hardcoded stripe height of every compute stage
(`block = 1024`, lines 219, 298, 360, 431). -/
def blockSize : ℕ := 1024

/-!
## Grids, NoData marking, clamped convolution

A grid is a total function on ℤ × ℤ; the engine only ever reads it
through clamped indices, matching GDAL reads of `[0,R)×[0,C)` plus
scipy's `mode="nearest"` boundary extension.
-/

/-- NoData sentinel (`NODATA = -9999.0`, line 72). -/
def NODATA : ℚ := -9999

/-- Clamped index into `[0, n)`, the `mode="nearest"` extension. -/
def iclamp (n i : ℤ) : ℤ := max 0 (min i (n - 1))

/-- A raster band: cell values indexed by `(row, col)`. -/
abbrev Grid (α : Type) := ℤ → ℤ → FV α

/-- NoData marking before convolution (lines 305-306 and 368-369):
cells equal to the sentinel are replaced by NaN. -/
def markNoData (g : Grid ℚ) : Grid ℚ := fun i j =>
  if g i j = FV.fin NODATA then FV.nan else g i j

/-- The marked stripe read window `[ys, ye)` as convolve sees it: window
row `a` holds source row `ys + a`, and out-of-window indices are clamped
to the window (scipy clamps against the array it is given, which is the
stripe window, not the whole raster). -/
def windowAt (g : Grid ℚ) (C ys ye : ℤ) : ℤ → ℤ → FV ℚ := fun a b =>
  markNoData g (ys + iclamp (ye - ys) a) (iclamp C b)

/-- First row of the stripe containing output row `i`
(`range(0, rows, block)`). -/
def stripeStart (B i : ℕ) : ℕ := (i / B) * B

/-!
## Curvature kernel (`compute_curvatura`, lines 274-323)

Kernel `{0,1,0; 1,-4,1; 0,1,0} / cell_size²`.  scipy's correlate sums
only over offsets whose weight is non-zero, so the footprint is the
5-cell cross; the corner zeros never touch the data.
-/

/-- Read window start for the curvature stripe of row `i` (`pad = 1`). -/
def curvYs (B i : ℕ) : ℤ := max ((stripeStart B i : ℤ) - 1) 0

/-- Read window end for the curvature stripe of row `i`. -/
def curvYe (R B i : ℕ) : ℤ := min ((stripeStart B i : ℤ) + B + 1) R

/-- The convolution value at write row `i`, column `j`: the weighted sum
over the non-zero (cross) kernel cells of the marked window. -/
def curvConvAt (g : Grid ℚ) (R C : ℕ) (cell : ℚ) (B : ℕ) (i j : ℕ) : FV ℚ :=
  let f := windowAt g C (curvYs B i) (curvYe R B i)
  let a := (i : ℤ) - curvYs B i
  let b := (j : ℤ)
  FV.add (FV.add (FV.add (FV.add
    (FV.smul (-4 / cell ^ 2) (f a b))
    (FV.smul (1 / cell ^ 2) (f (a - 1) b)))
    (FV.smul (1 / cell ^ 2) (f (a + 1) b)))
    (FV.smul (1 / cell ^ 2) (f a (b - 1))))
    (FV.smul (1 / cell ^ 2) (f a (b + 1)))

/-- The value written to `curvatura.tif` at `(i, j)`: NaNs are re-marked
as NoData (lines 317-318), nothing else is changed. -/
def curvOut (g : Grid ℚ) (R C : ℕ) (cell : ℚ) (B : ℕ) (i j : ℕ) : FV ℚ :=
  let v := curvConvAt g R C cell B i j
  if v.isNan then FV.fin NODATA else v

/-!
## TPI kernel (`compute_tpi`, lines 329-389)

Annular kernel: cells with `0 < dist ≤ radius`, each weighted
`1 / count`; the zero-weight centre and corners are skipped by scipy.
-/

/-- The annulus offsets `0 < dx² + dy² ≤ r²` of the TPI kernel. -/
def annulus (r : ℕ) : Finset (ℤ × ℤ) :=
  (Finset.Icc (-(r : ℤ)) (r : ℤ) ×ˢ Finset.Icc (-(r : ℤ)) (r : ℤ)).filter
    (fun d => 0 < d.1 ^ 2 + d.2 ^ 2 ∧ d.1 ^ 2 + d.2 ^ 2 ≤ (r : ℤ) ^ 2)

/-- Number of annulus cells (`kernel.sum()` before normalisation). -/
def annCount (r : ℕ) : ℕ := (annulus r).card

/-- Read window start for the TPI stripe of row `i` (`pad = radius`). -/
def tpiYs (r B i : ℕ) : ℤ := max ((stripeStart B i : ℤ) - r) 0

/-- Read window end for the TPI stripe of row `i`. -/
def tpiYe (R r B i : ℕ) : ℤ := min ((stripeStart B i : ℤ) + B + r) R

/-- The marked elevation of pixel `(i, j)` as the TPI stripe sees it. -/
def tpiElevAt (g : Grid ℚ) (R C r B : ℕ) (i j : ℕ) : FV ℚ :=
  windowAt g C (tpiYs r B i) (tpiYe R r B i) ((i : ℤ) - tpiYs r B i) j

/-- The annular mean (`convolve(elev, kernel, mode="nearest")`). -/
def tpiMeanAt (g : Grid ℚ) (R C r B : ℕ) (i j : ℕ) : FV ℚ :=
  ∑ d ∈ annulus r,
    FV.smul (1 / (annCount r : ℚ))
      (windowAt g C (tpiYs r B i) (tpiYe R r B i)
        (((i : ℤ) - tpiYs r B i) + d.1) ((j : ℤ) + d.2))

/-- `tpi = elev - mean_elev` before any masking (line 372). -/
def tpiRawAt (g : Grid ℚ) (R C r B : ℕ) (i j : ℕ) : FV ℚ :=
  FV.sub (tpiElevAt g R C r B i j) (tpiMeanAt g R C r B i j)

/-- The value written to `tpi.tif` at `(i, j)`: NoData source pixels are
overwritten with the sentinel (line 383), then any remaining NaN is
replaced by the sentinel (line 384). -/
def tpiOut (g : Grid ℚ) (R C r B : ℕ) (i j : ℕ) : FV ℚ :=
  let v2 := if g i j = FV.fin NODATA then FV.fin NODATA
            else tpiRawAt g R C r B i j
  if v2.isNan then FV.fin NODATA else v2

/-!
## Ecological zones (`compute_pisos`, lines 214-250, table lines 91-99)

Per-pixel classification, no neighbourhood: the stripe loop reads rows
`[y_off, y_off + win_h)` directly, so the output at `(i, j)` depends
only on the source value at `(i, j)`.
-/

/-- `PISOS_SIMPLE` (lines 91-99): `(min_alt, max_alt, código)`. -/
def pisosSimple : List (ℚ × ℚ × ℕ) :=
  [(0, 500, 1), (500, 2300, 2), (2300, 3500, 3),
   (3500, 4000, 4), (4000, 4800, 5), (4800, 99999, 6)]

/-- One band's mask `(elev >= lo) & (elev < hi) & (elev != NODATA)`
(line 242), with NumPy comparison semantics (False on NaN). -/
def bandMask (v : FV ℚ) (lo hi : ℚ) : Bool :=
  v.geQ lo && v.ltQ hi && !(decide (v = FV.fin NODATA))

/-- The classifier loop: `result` starts at 0, each band in order
overwrites where its mask holds, and finally NoData cells are forced
to 0 (line 245). -/
def pisosClassify (v : FV ℚ) : ℕ :=
  let base := pisosSimple.foldl
    (fun acc band => if bandMask v band.1 band.2.1 then band.2.2 else acc) 0
  if v = FV.fin NODATA then 0 else base

/-- The value written to `pisos_ecologicos.tif` at `(i, j)`. -/
def pisosOut (g : Grid ℚ) (i j : ℕ) : ℕ := pisosClassify (g i j)

/-!
## TWI (`compute_twi`, lines 395-453)

Per-pixel formula over the slope raster; transcendental, so modelled
over ℝ (these definitions are necessarily noncomputable).
-/

/-- `np.deg2rad`. -/
noncomputable def deg2radV : FV ℝ → FV ℝ
  | .fin a => .fin (a * Real.pi / 180)
  | .inf => .inf
  | .ninf => .ninf
  | .nan => .nan

/-- `np.clip(x, lo, None)`: pointwise lower clamp, NaN passes through. -/
noncomputable def clipLo (lo : ℝ) : FV ℝ → FV ℝ
  | .fin a => .fin (max a lo)
  | .inf => .inf
  | .ninf => .fin lo
  | .nan => .nan

/-- `np.tan` (NaN on non-finite input). -/
noncomputable def vtan : FV ℝ → FV ℝ
  | .fin a => .fin (Real.tan a)
  | _ => .nan

/-- IEEE division as NumPy performs it elementwise. -/
noncomputable def vdiv : FV ℝ → FV ℝ → FV ℝ
  | .nan, _ => .nan
  | _, .nan => .nan
  | .fin a, .fin b =>
      if b = 0 then (if a = 0 then .nan else if 0 < a then .inf else .ninf)
      else .fin (a / b)
  | .fin _, .inf => .fin 0
  | .fin _, .ninf => .fin 0
  | .inf, .fin b => if 0 ≤ b then .inf else .ninf
  | .ninf, .fin b => if 0 ≤ b then .ninf else .inf
  | .inf, .inf => .nan
  | .inf, .ninf => .nan
  | .ninf, .inf => .nan
  | .ninf, .ninf => .nan

/-- `np.log`: `-inf` at zero, NaN on negatives and NaN, `+inf` at `+inf`. -/
noncomputable def vlog : FV ℝ → FV ℝ
  | .fin a => if 0 < a then .fin (Real.log a) else if a = 0 then .ninf else .nan
  | .inf => .inf
  | .ninf => .nan
  | .nan => .nan

/-- The per-pixel TWI formula (lines 440-444): slope degrees to radians,
clip to the `deg2rad(0.1) = π/1800` floor, then `ln(cell / tan(·))`
with `SCA = cell_size`. -/
noncomputable def twiFormula (cell : ℝ) (s : FV ℝ) : FV ℝ :=
  vlog (vdiv (FV.fin cell) (vtan (clipLo (Real.pi / 1800) (deg2radV s))))

/-- The value written to `twi.tif` at `(i, j)` (lines 433-448): the
formula value, overwritten with the sentinel at NoData elevation pixels
(line 446), then any NaN or ±inf replaced by the sentinel (line 447). -/
noncomputable def twiOut (elev slope : Grid ℝ) (cell : ℝ) (i j : ℕ) : FV ℝ :=
  let v := twiFormula cell (slope i j)
  let v2 := if elev i j = FV.fin (-9999 : ℝ) then FV.fin (-9999 : ℝ) else v
  if v2.isNan || v2.isInf then FV.fin (-9999 : ℝ) else v2

/-!
## Orchestrator (`main`, lines 459-567) and skip logic (lines 132-137)

`main` is straight-line code with no try/except: every stage that
raises aborts the remaining catalog entries.  External GDAL work
(DEMProcessing / Translate / raster I/O) can fail; `Env.collabOk`
records, per stage, whether that external work succeeds.
-/

/-- The eight catalog entries, in `main`'s order. -/
inductive Deriv where
  | pendiente
  | rugosidad
  | altitud
  | pisosE
  | aspecto
  | curvatura
  | tpiD
  | twiD
deriving DecidableEq

/-- Output file name of each catalog entry (lines 493-502). -/
def outName : Deriv → String
  | .pendiente => "pendiente.tif"
  | .rugosidad => "rugosidad.tif"
  | .altitud => "altitud.tif"
  | .pisosE => "pisos_ecologicos.tif"
  | .aspecto => "aspecto.tif"
  | .curvatura => "curvatura.tif"
  | .tpiD => "tpi.tif"
  | .twiD => "twi.tif"

/-- The fixed catalog order of `main`. -/
def catalog : List Deriv :=
  [.pendiente, .rugosidad, .altitud, .pisosE, .aspecto, .curvatura,
   .tpiD, .twiD]

/-- Whether each stage's external work succeeds when invoked (Python
surfaces a failure as an exception). -/
structure Env where
  collabOk : Deriv → Bool

/-- What the orchestrator did with one catalog entry. -/
inductive Action where
  | skip (d : Deriv)
  | compute (d : Deriv)
deriving DecidableEq

/-- Run-aborting exceptions of the pipeline. -/
inductive RunErr where
  | gdalError (d : Deriv)
  /-- `FileNotFoundError("Slope raster not found: ...")` raised by
  `compute_twi` (lines 413-418) before it creates any output. -/
  | slopeMissing
  | inputUnreadable
deriving DecidableEq

/-- One catalog entry's execution against the current file set `fs`.
`compute_twi` opens `pendiente.tif` first and fails fast if it is
absent; every stage, on success, creates its output file. -/
def runStage (env : Env) (fs : List String) (d : Deriv) :
    Except RunErr (List String) :=
  match d with
  | .twiD =>
      if "pendiente.tif" ∈ fs then
        if env.collabOk .twiD then .ok (outName .twiD :: fs)
        else .error (.gdalError .twiD)
      else .error .slopeMissing
  | _ => if env.collabOk d then .ok (outName d :: fs)
         else .error (.gdalError d)

/-- The orchestrator loop: for each entry, skip if the output exists and
the force flag is clear (`_skip_or_compute`), otherwise run the stage;
an exception aborts the remaining entries (no try/except in `main`).
Returns the action trace and either the error or
`(files, computed, skipped)`. -/
def runCatalog (env : Env) (force : Bool) :
    List Deriv → List String →
    List Action × Except RunErr (List String × ℕ × ℕ)
  | [], fs => ([], .ok (fs, 0, 0))
  | d :: rest, fs =>
    if outName d ∈ fs ∧ force = false then
      let res := runCatalog env force rest fs
      (Action.skip d :: res.1,
       match res.2 with
       | .ok (fs2, c, s) => .ok (fs2, c, s + 1)
       | .error e => .error e)
    else
      match runStage env fs d with
      | .error e => ([Action.compute d], .error e)
      | .ok fs1 =>
        let res := runCatalog env force rest fs1
        (Action.compute d :: res.1,
         match res.2 with
         | .ok (fs2, c, s) => .ok (fs2, c + 1, s)
         | .error e => .error e)

/-- A full `main` run: an unreadable input DEM is fatal before any
catalog work (lines 483-486); otherwise the catalog runs in order. -/
def mainRun (inputOk : Bool) (env : Env) (force : Bool) (fs : List String) :
    List Action × Except RunErr (List String × ℕ × ℕ) :=
  if inputOk then runCatalog env force catalog fs
  else ([], .error .inputUnreadable)

/-!
## `compute_tpi` I/O ordering (for the radius-validation claim)

`compute_tpi` builds the kernel (pure NumPy, lines 346-349), then
creates the output raster (line 352), then reads, convolves and writes
each stripe.  Nothing validates the radius: `argparse` accepts any
integer for `--tpi-radius` (lines 476-479).
-/

/-- I/O events of `compute_tpi`, in source order. -/
inductive TpiEv where
  | create
  | readStripe (k : ℕ)
  | writeStripe (k : ℕ)
deriving DecidableEq

/-- Failure mode of a `compute_tpi` run. -/
inductive TpiErr where
  /-- scipy `RuntimeError: filter weights array has incorrect shape.`,
  raised by `convolve` when the weights array has a zero-sized
  dimension, as happens for a negative radius. -/
  | badKernelShape
deriving DecidableEq

/-- Side length of `np.ogrid[-r : r+1]` (empty for `r < 0`). -/
def ogridLen (r : ℤ) : ℕ := (2 * r + 1).toNat

/-- The I/O trace and outcome of `compute_tpi` with radius `r` on `R`
rows.  The Create happens unconditionally before the stripe loop; with
an empty kernel the first convolve raises after the first read;
otherwise every stripe is processed.  In particular `r = 0` raises no
error: the 1×1 kernel is `[[0/0]] = [[nan]]`, and scipy excludes the
NaN weight from its footprint (`|w| > DBL_EPSILON`), so the convolution
is the empty sum 0 and `tpi = elev - 0` writes the elevation values
(the annulus of radius 0 is empty in this model, matching that
footprint). -/
def tpiRun (r : ℤ) (R : ℕ) : List TpiEv × Except TpiErr Unit :=
  if R = 0 then ([TpiEv.create], .ok ()) else
  if ogridLen r = 0 then
    ([TpiEv.create, TpiEv.readStripe 0], .error .badKernelShape)
  else
    (TpiEv.create ::
      ((List.range (numBlocks R blockSize)).map
        (fun k => [TpiEv.readStripe k, TpiEv.writeStripe k])).flatten,
     .ok ())

/-!
## Example grids used by concrete witnesses
-/

/-- Example grid with a single NoData pixel at `(1, 1)`. -/
def gNd : Grid ℚ := fun i j =>
  if i = 1 ∧ j = 1 then FV.fin NODATA else FV.fin 100

/-- Real-valued example elevation grid with NoData at `(1, 1)`. -/
noncomputable def gNdR : Grid ℝ := fun i j =>
  if i = 1 ∧ j = 1 then FV.fin (-9999) else FV.fin 100

/-- All-zero real grid (used as a slope raster). -/
noncomputable def gZeroR : Grid ℝ := fun _ _ => FV.fin 0

/-- All-zero rational grid. -/
def gZeroQ : Grid ℚ := fun _ _ => FV.fin 0

/-- Grid with a `+inf` cell at `(0, 1)` and zeros elsewhere. -/
def gInf : Grid ℚ := fun i j =>
  if i = 0 ∧ j = 1 then FV.inf else FV.fin 0

/-- Constant elevation 7 everywhere. -/
def gConst7 : Grid ℚ := fun _ _ => FV.fin 7

/-- Linear ramp along the column axis, unit cell size. -/
def gRamp : Grid ℚ := fun _ b => FV.fin (b : ℚ)

/-- Environment in which every external stage succeeds. -/
def envOk : Env := ⟨fun _ => true⟩

/-- Environment in which the slope (pendiente) stage's external GDAL
work fails and everything else succeeds. -/
def envFailPend : Env := ⟨fun d => !(d == Deriv.pendiente)⟩

/-- The file set produced by a full first run of the catalog from an
empty directory. -/
def fsAll : List String :=
  ["twi.tif", "tpi.tif", "curvatura.tif", "aspecto.tif",
   "pisos_ecologicos.tif", "altitud.tif", "rugosidad.tif",
   "pendiente.tif"]

/-!
## Theorems
-/

theorem fv_add_def {α : Type} [LinearOrderedField α] (x y : FV α) :
    x + y = FV.add x y := rfl

theorem fv_zero_def {α : Type} [LinearOrderedField α] :
    (0 : FV α) = FV.fin 0 := rfl

theorem fv_nan_add {α : Type} [LinearOrderedField α] (x : FV α) :
    FV.add FV.nan x = FV.nan := by cases x <;> rfl

theorem fv_add_nan {α : Type} [LinearOrderedField α] (x : FV α) :
    FV.add x FV.nan = FV.nan := by cases x <;> rfl

theorem fv_fin_add_fin {α : Type} [LinearOrderedField α] (a b : α) :
    FV.add (FV.fin a) (FV.fin b) = FV.fin (a + b) := rfl

theorem fv_sum_fin {α : Type} [LinearOrderedField α] {β : Type}
    (K : Finset β) (h : β → α) :
    (∑ d ∈ K, FV.fin (h d)) = FV.fin (∑ d ∈ K, h d) :=
  (map_sum (FV.finHom (α := α)) h K).symm

theorem fv_sum_nan {α : Type} [LinearOrderedField α] {β : Type}
    [DecidableEq β] (K : Finset β) (f : β → FV α)
    (d : β) (hd : d ∈ K) (hf : f d = FV.nan) :
    (∑ x ∈ K, f x) = FV.nan := by
  rw [← Finset.add_sum_erase K f hd, hf, fv_add_def, fv_nan_add]

theorem fv_sum_fin_of_forall {α : Type} [LinearOrderedField α] {β : Type}
    (K : Finset β) (f : β → FV α)
    (h : ∀ d ∈ K, ∃ q, f d = FV.fin q) :
    ∃ q, (∑ x ∈ K, f x) = FV.fin q := by
  classical
  induction K using Finset.induction_on with
  | empty => exact ⟨0, rfl⟩
  | insert hx ih =>
    rename_i a s
    rw [Finset.sum_insert hx]
    obtain ⟨q, hq⟩ := h a (Finset.mem_insert_self a s)
    obtain ⟨p, hp⟩ := ih (fun d hd => h d (Finset.mem_insert_of_mem hd))
    exact ⟨q + p, by rw [hq, hp, fv_add_def, fv_fin_add_fin]⟩

theorem fv_smul_nan {α : Type} [LinearOrderedField α] (q : α) :
    FV.smul q FV.nan = FV.nan := rfl

theorem fv_smul_fin {α : Type} [LinearOrderedField α] (q a : α) :
    FV.smul q (FV.fin a) = FV.fin (q * a) := rfl

theorem fv_sub_nan {α : Type} [LinearOrderedField α] (x : FV α) :
    FV.sub x FV.nan = FV.nan := by cases x <;> rfl

theorem fv_nan_sub {α : Type} [LinearOrderedField α] (x : FV α) :
    FV.sub FV.nan x = FV.nan := by cases x <;> rfl

theorem fv_fin_sub_fin {α : Type} [LinearOrderedField α] (a b : α) :
    FV.sub (FV.fin a) (FV.fin b) = FV.fin (a - b) := by
  simp [FV.sub, FV.neg, FV.add, sub_eq_add_neg]

theorem countP_range_eq_one (n q : ℕ) (h : q < n) :
    (List.range n).countP (fun k => decide (k = q)) = 1 := by
  induction n with
  | zero => omega
  | succ m ih =>
    rw [List.range_succ, List.countP_append]
    rcases Nat.lt_or_ge q m with hlt | hge
    · rw [ih hlt]
      simp
      omega
    · have hq : q = m := by omega
      subst hq
      have : (List.range q).countP (fun k => decide (k = q)) = 0 := by
        rw [List.countP_eq_zero]
        intro a ha
        simp only [List.mem_range] at ha
        simp
        omega
      rw [this]
      simp

theorem numBlocks_pos (R B : ℕ) (hR : 0 < R) (hB : 0 < B) :
    0 < numBlocks R B :=
  Nat.div_pos (by omega) hB

theorem numBlocks_cover (R B : ℕ) (hR : 0 < R) (hB : 0 < B) :
    R ≤ B * numBlocks R B ∧ B * numBlocks R B < R + B := by
  have e3 := Nat.div_add_mod (R + B - 1) B
  have e4 := Nat.mod_lt (R + B - 1) hB
  unfold numBlocks
  omega

theorem stripe_bounds (B i : ℕ) (hB : 0 < B) :
    stripeStart B i ≤ i ∧ i < stripeStart B i + B := by
  unfold stripeStart
  have e1 := Nat.div_add_mod i B
  have e2 := Nat.mod_lt i hB
  have hcomm : B * (i / B) = (i / B) * B := Nat.mul_comm B (i / B)
  omega

/-- Reading the window with halo `H` at window row `(i - ys) + dy` is
reading the raster at the globally clamped row `i + dy`: the halo is
exactly wide enough that window clamping and whole-raster clamping
agree for every write row of the stripe. -/
theorem window_clamp_eq (R B H i : ℕ) (dy : ℤ) (hB : 0 < B) (hi : i < R)
    (hdy1 : -(H : ℤ) ≤ dy) (hdy2 : dy ≤ H) :
    (max ((stripeStart B i : ℤ) - H) 0) +
      iclamp ((min ((stripeStart B i : ℤ) + B + H) R) -
              (max ((stripeStart B i : ℤ) - H) 0))
        (((i : ℤ) - max ((stripeStart B i : ℤ) - H) 0) + dy) =
    iclamp R ((i : ℤ) + dy) := by
  have hsb := stripe_bounds B i hB
  simp only [iclamp]
  omega

/-- C1: for every total row count `R > 0`, stripe height `B > 0` and
halo radius `H ≥ 0`, every stripe plan produced by the block scheduler
satisfies `read_start = max(y0 - H, 0)`, `read_end = min(y0 + B + H, R)`,
`write_count = min(B, R - y0)`, `trim_top = y0 - read_start`,
`trim_bottom = read_end - (y0 + write_count)`; after trimming a stripe
has exactly `write_count` rows; and the write windows
`[y0, y0 + write_count)` partition `[0, R)` exactly — each row is covered
by exactly one stripe and the last window ends exactly at `R`. -/
theorem scheduler_blockplans_correct (R B H : ℕ) (hR : 0 < R) (hB : 0 < B) :
    (blockPlans R B H).length = numBlocks R B ∧
    blockPlans R B H ≠ [] ∧
    (∀ p ∈ blockPlans R B H,
      p.readStart = max (p.y0 - H) 0 ∧
      p.readEnd = min (p.y0 + B + H) R ∧
      p.writeCount = min (B : ℤ) (R - p.y0) ∧
      p.trimTop = p.y0 - p.readStart ∧
      p.trimBot = p.readEnd - (p.y0 + p.writeCount) ∧
      0 ≤ p.trimTop ∧ 0 ≤ p.trimBot ∧
      (p.readEnd - p.readStart) - p.trimTop - p.trimBot = p.writeCount) ∧
    (∀ x : ℤ, 0 ≤ x → x < R →
      (blockPlans R B H).countP
        (fun p => decide (p.y0 ≤ x ∧ x < p.y0 + p.writeCount)) = 1) ∧
    (∃ p, (blockPlans R B H).getLast? = some p ∧ p.y0 + p.writeCount = R) := by
  have hlen : (blockPlans R B H).length = numBlocks R B := by
    simp [blockPlans]
  refine ⟨hlen, ?_, ?_, ?_, ?_⟩
  · intro hnil
    have := numBlocks_pos R B hR hB
    rw [← hlen, hnil] at this
    simp at this
  · intro p hp
    simp only [blockPlans, List.mem_map, List.mem_range] at hp
    obtain ⟨k, hk, rfl⟩ := hp
    have hkB : (0 : ℤ) ≤ (k : ℤ) * (B : ℤ) := by positivity
    simp only [mkPlan]
    refine ⟨?_, ?_, ?_, ?_, ?_, ?_, ?_, ?_⟩ <;> first
    | trivial
    | omega
  · intro x hx0 hxR
    simp only [blockPlans]
    rw [List.countP_map]
    set t := x.toNat with hxdef
    have hxt : (t : ℤ) = x := Int.toNat_of_nonneg hx0
    have e1 := Nat.div_add_mod t B
    have e2 := Nat.mod_lt t hB
    have hcov := numBlocks_cover R B hR hB
    have htR : t < R := by omega
    have hqn : t / B < numBlocks R B := by
      have hBq : B * (t / B) < B * numBlocks R B := by omega
      exact Nat.lt_of_mul_lt_mul_left hBq
    have hcong : ∀ k ∈ List.range (numBlocks R B),
        ((fun p => decide (p.y0 ≤ x ∧ x < p.y0 + p.writeCount)) ∘
          (fun (k : ℕ) => mkPlan R B H ((k : ℤ) * (B : ℤ)))) k = true ↔
        (fun k => decide (k = t / B)) k = true := by
      intro k hk
      simp only [Function.comp_apply, mkPlan, decide_eq_true_eq]
      have hcast : ((k * B : ℕ) : ℤ) = (k : ℤ) * (B : ℤ) := by push_cast; ring
      constructor
      · rintro ⟨h1, h2⟩
        have h1n : k * B ≤ t := by omega
        have h2n : t < k * B + B := by omega
        have hexp : (k + 1) * B = k * B + B := by ring
        have hdiv : t / B = k := Nat.div_eq_of_lt_le h1n (by omega)
        omega
      · intro hkq
        subst hkq
        have hcomm : B * (t / B) = (t / B) * B := Nat.mul_comm B (t / B)
        constructor <;> omega
    rw [List.countP_congr hcong]
    exact countP_range_eq_one _ _ hqn
  · obtain ⟨m, hm⟩ : ∃ m, numBlocks R B = m + 1 :=
      ⟨numBlocks R B - 1, by have := numBlocks_pos R B hR hB; omega⟩
    refine ⟨mkPlan R B H ((m : ℤ) * (B : ℤ)), ?_, ?_⟩
    · rw [blockPlans, hm, List.range_succ, List.map_append]
      simp
    · have hcov := numBlocks_cover R B hR hB
      rw [hm] at hcov
      have hexp : B * (m + 1) = B * m + B := by ring
      have hcast : ((B * m : ℕ) : ℤ) = (m : ℤ) * (B : ℤ) := by push_cast; ring
      simp only [mkPlan]
      omega

theorem bandMask_fin (e lo hi : ℚ) :
    bandMask (FV.fin e) lo hi = true ↔ ((lo ≤ e ∧ e < hi) ∧ e ≠ -9999) := by
  simp [bandMask, FV.geQ, FV.ltQ, NODATA]

/-- Closed form of the classifier loop on a finite non-NoData value:
the fold tries the bands in order, later matches overwriting earlier
ones, so the result is the last matching band's code. -/
theorem pisosClassify_fin (e : ℚ) (hnd : e ≠ -9999) :
    pisosClassify (FV.fin e) =
      if 4800 ≤ e ∧ e < 99999 then 6
      else if 4000 ≤ e ∧ e < 4800 then 5
      else if 3500 ≤ e ∧ e < 4000 then 4
      else if 2300 ≤ e ∧ e < 3500 then 3
      else if 500 ≤ e ∧ e < 2300 then 2
      else if 0 ≤ e ∧ e < 500 then 1
      else 0 := by
  unfold pisosClassify
  rw [if_neg (by simp [NODATA, hnd] : ¬(FV.fin e = FV.fin NODATA))]
  simp only [pisosSimple, List.foldl, bandMask_fin]
  simp only [ne_eq, hnd, not_false_iff, and_true]

theorem iclamp_eq_self (n i : ℤ) (h0 : 0 ≤ i) (hn : i < n) :
    iclamp n i = i := by
  simp only [iclamp]
  omega

/-- The three window rows the curvature kernel can touch for write row
`i` coincide with the globally clamped rows `i-1`, `i`, `i+1`. -/
theorem curv_row_eq (R B i : ℕ) (hB : 0 < B) (hi : i < R) :
    curvYs B i + iclamp (curvYe R B i - curvYs B i) ((i : ℤ) - curvYs B i)
      = iclamp R (i : ℤ) ∧
    curvYs B i + iclamp (curvYe R B i - curvYs B i)
      (((i : ℤ) - curvYs B i) - 1) = iclamp R ((i : ℤ) - 1) ∧
    curvYs B i + iclamp (curvYe R B i - curvYs B i)
      (((i : ℤ) - curvYs B i) + 1) = iclamp R ((i : ℤ) + 1) := by
  have hsb := stripe_bounds B i hB
  simp only [curvYs, curvYe, iclamp]
  refine ⟨?_, ?_, ?_⟩ <;> omega

/-- Window rows the TPI kernel touches coincide with globally clamped
rows, for every offset within the halo radius. -/
theorem tpi_row_eq (R r B i : ℕ) (dy : ℤ) (hB : 0 < B) (hi : i < R)
    (hdy1 : -(r : ℤ) ≤ dy) (hdy2 : dy ≤ r) :
    tpiYs r B i + iclamp (tpiYe R r B i - tpiYs r B i)
      (((i : ℤ) - tpiYs r B i) + dy) = iclamp R ((i : ℤ) + dy) := by
  have hsb := stripe_bounds B i hB
  simp only [tpiYs, tpiYe, iclamp]
  omega

/-- The TPI stripe's own-elevation read is the raster value at `(i,j)`. -/
theorem tpi_elev_eq (g : Grid ℚ) (R C r B i j : ℕ) (hB : 0 < B)
    (hi : i < R) (hj : j < C) :
    tpiElevAt g R C r B i j = markNoData g (i : ℤ) (j : ℤ) := by
  have hsb := stripe_bounds B i hB
  unfold tpiElevAt windowAt
  rw [iclamp_eq_self C j (by positivity) (by exact_mod_cast hj)]
  have hrow : tpiYs r B i + iclamp (tpiYe R r B i - tpiYs r B i)
      ((i : ℤ) - tpiYs r B i) = (i : ℤ) := by
    simp only [tpiYs, tpiYe, iclamp]
    omega
  rw [hrow]

/-- C2: a NoData source pixel yields the derivative's declared NoData
output in every core derivative: code 0 for ecological zones and the
-9999 sentinel for curvature, TPI and TWI; no computed value is emitted
there. -/
theorem nodata_propagates (g : Grid ℚ) (R C B : ℕ) (cell : ℚ) (r : ℕ)
    (i j : ℕ) (elev slope : Grid ℝ) (cellR : ℝ) (iR jR : ℕ)
    (hB : 0 < B) (hi : i < R) (hj : j < C)
    (hnd : g (i : ℤ) (j : ℤ) = FV.fin NODATA)
    (hndR : elev (iR : ℤ) (jR : ℤ) = FV.fin (-9999 : ℝ)) :
    pisosOut g i j = 0 ∧
    curvOut g R C cell B i j = FV.fin NODATA ∧
    tpiOut g R C r B i j = FV.fin NODATA ∧
    twiOut elev slope cellR iR jR = FV.fin (-9999 : ℝ) := by
  refine ⟨?_, ?_, ?_, ?_⟩
  · unfold pisosOut
    rw [hnd]
    decide
  · have hcenter : windowAt g C (curvYs B i) (curvYe R B i)
        ((i : ℤ) - curvYs B i) (j : ℤ) = FV.nan := by
      unfold windowAt
      rw [(curv_row_eq R B i hB hi).1,
        iclamp_eq_self R i (by positivity) (by exact_mod_cast hi),
        iclamp_eq_self C j (by positivity) (by exact_mod_cast hj)]
      unfold markNoData
      rw [if_pos hnd]
    simp only [curvOut, curvConvAt]
    rw [hcenter, fv_smul_nan, fv_nan_add, fv_nan_add, fv_nan_add, fv_nan_add]
    rfl
  · simp only [tpiOut]
    rw [if_pos hnd]
    rfl
  · simp only [twiOut]
    rw [if_pos hndR]
    rfl

/-- Witness for C2 on concrete grids with NoData at pixel `(1, 1)`. -/
theorem nodata_propagates_witness :
    pisosOut gNd 1 1 = 0 ∧
    curvOut gNd 3 3 1 2 1 1 = FV.fin NODATA ∧
    tpiOut gNd 3 3 1 2 1 1 = FV.fin NODATA ∧
    twiOut gNdR gZeroR 30 1 1 = FV.fin (-9999 : ℝ) :=
  nodata_propagates gNd 3 3 2 1 1 1 1 gNdR gZeroR 30 1 1
    (by norm_num) (by norm_num) (by norm_num) (by decide)
    (by norm_num [gNdR])

/-- C5: the TWI slope is clamped to the 0.1° floor (in radians,
`π/1800`) before the tangent, so for every slope below 90° — in
particular exactly 0° — the tangent is strictly positive (hence
non-zero, the division is guarded), and the TWI value is the finite
number `ln(cell / tan(clamped slope))`: no infinite TWI output arises
from a zero slope. -/
theorem twi_zero_slope_guarded (cell s : ℝ) (hc : 0 < cell) (hs : s < 90) :
    Real.pi / 1800 ≤ max (s * Real.pi / 180) (Real.pi / 1800) ∧
    0 < Real.tan (max (s * Real.pi / 180) (Real.pi / 1800)) ∧
    twiFormula cell (FV.fin s) =
      FV.fin (Real.log
        (cell / Real.tan (max (s * Real.pi / 180) (Real.pi / 1800)))) ∧
    (twiFormula cell (FV.fin s)).isFin = true := by
  have hpi := Real.pi_pos
  set t := max (s * Real.pi / 180) (Real.pi / 1800) with ht
  have h1 : 0 < t := lt_of_lt_of_le (by positivity) (le_max_right _ _)
  have h2 : t < Real.pi / 2 := by
    apply max_lt
    · nlinarith
    · nlinarith
  have htan : 0 < Real.tan t := Real.tan_pos_of_pos_of_lt_pi_div_two h1 h2
  have hdiv : 0 < cell / Real.tan t := div_pos hc htan
  have hform : twiFormula cell (FV.fin s) = FV.fin (Real.log (cell / Real.tan t)) := by
    simp only [twiFormula, deg2radV, clipLo, vtan, vdiv, ← ht]
    rw [if_neg (ne_of_gt htan)]
    simp only [vlog]
    rw [if_pos hdiv]
  exact ⟨le_max_right _ _, htan, hform, by rw [hform]; rfl⟩

/-- Witness for C5 at slope exactly 0° and cell size 30 m. -/
theorem twi_zero_slope_guarded_witness :
    Real.pi / 1800 ≤ max (0 * Real.pi / 180) (Real.pi / 1800) ∧
    0 < Real.tan (max (0 * Real.pi / 180) (Real.pi / 1800)) ∧
    twiFormula 30 (FV.fin 0) =
      FV.fin (Real.log
        (30 / Real.tan (max (0 * Real.pi / 180) (Real.pi / 1800)))) ∧
    (twiFormula 30 (FV.fin 0)).isFin = true :=
  twi_zero_slope_guarded 30 0 (by norm_num) (by norm_num)

theorem fv_fin_or_nan_add {α : Type} [LinearOrderedField α] {x y : FV α}
    (hx : (∃ q, x = FV.fin q) ∨ x = FV.nan)
    (hy : (∃ q, y = FV.fin q) ∨ y = FV.nan) :
    (∃ q, FV.add x y = FV.fin q) ∨ FV.add x y = FV.nan := by
  rcases hx with ⟨a, ha⟩ | ha <;> rcases hy with ⟨b, hb⟩ | hb <;>
    subst ha <;> subst hb
  · exact Or.inl ⟨a + b, rfl⟩
  · exact Or.inr (fv_add_nan _)
  · exact Or.inr (fv_nan_add _)
  · exact Or.inr (fv_nan_add _)

theorem fv_fin_or_nan_sub {α : Type} [LinearOrderedField α] {x y : FV α}
    (hx : (∃ q, x = FV.fin q) ∨ x = FV.nan)
    (hy : (∃ q, y = FV.fin q) ∨ y = FV.nan) :
    (∃ q, FV.sub x y = FV.fin q) ∨ FV.sub x y = FV.nan := by
  rcases hx with ⟨a, ha⟩ | ha <;> rcases hy with ⟨b, hb⟩ | hb <;>
    subst ha <;> subst hb
  · exact Or.inl ⟨a - b, fv_fin_sub_fin a b⟩
  · exact Or.inr (fv_sub_nan _)
  · exact Or.inr (fv_nan_sub _)
  · exact Or.inr (fv_nan_sub _)

theorem fv_fin_or_nan_smul {α : Type} [LinearOrderedField α] (q : α)
    {x : FV α} (hx : (∃ p, x = FV.fin p) ∨ x = FV.nan) :
    (∃ p, FV.smul q x = FV.fin p) ∨ FV.smul q x = FV.nan := by
  rcases hx with ⟨a, ha⟩ | ha <;> subst ha
  · exact Or.inl ⟨q * a, rfl⟩
  · exact Or.inr rfl

theorem fv_sum_fin_or_nan {α : Type} [LinearOrderedField α] {β : Type}
    (K : Finset β) (f : β → FV α)
    (h : ∀ d ∈ K, (∃ q, f d = FV.fin q) ∨ f d = FV.nan) :
    (∃ q, (∑ x ∈ K, f x) = FV.fin q) ∨ (∑ x ∈ K, f x) = FV.nan := by
  classical
  induction K using Finset.induction_on with
  | empty => exact Or.inl ⟨0, rfl⟩
  | insert hx ih =>
    rename_i a s
    rw [Finset.sum_insert hx]
    exact fv_fin_or_nan_add (h a (Finset.mem_insert_self a s))
      (ih (fun d hd => h d (Finset.mem_insert_of_mem hd)))

/-- Every cell the window accessor can return, from a grid having no
infinities on `[0,R)×[0,C)`, is a finite value or NaN. -/
theorem windowAt_fin_or_nan (g : Grid ℚ) (R C : ℕ) (ys ye : ℤ)
    (hys : 0 ≤ ys) (hye : ye ≤ R) (hlt : ys < ye) (hC : 0 < C)
    (hnoinf : ∀ a b : ℤ, 0 ≤ a → a < R → 0 ≤ b → b < C →
      g a b ≠ FV.inf ∧ g a b ≠ FV.ninf)
    (a b : ℤ) :
    (∃ q, windowAt g C ys ye a b = FV.fin q) ∨
      windowAt g C ys ye a b = FV.nan := by
  unfold windowAt markNoData
  have hrb : 0 ≤ ys + iclamp (ye - ys) a ∧ ys + iclamp (ye - ys) a < R := by
    simp only [iclamp]
    omega
  have hcb : 0 ≤ iclamp C b ∧ iclamp C b < C := by
    simp only [iclamp]
    omega
  obtain ⟨hni, hnni⟩ := hnoinf _ _ hrb.1 hrb.2 hcb.1 hcb.2
  split_ifs with hnd
  · exact Or.inr rfl
  · cases hgv : g (ys + iclamp (ye - ys) a) (iclamp C b) with
    | fin q => exact Or.inl ⟨q, rfl⟩
    | inf => exact absurd hgv hni
    | ninf => exact absurd hgv hnni
    | nan => exact Or.inr rfl

theorem curv_window_bounds (R B i : ℕ) (hB : 0 < B) (hi : i < R) :
    0 ≤ curvYs B i ∧ curvYe R B i ≤ R ∧ curvYs B i < curvYe R B i := by
  have := stripe_bounds B i hB
  simp only [curvYs, curvYe]
  omega

theorem tpi_window_bounds (R r B i : ℕ) (hB : 0 < B) (hi : i < R) :
    0 ≤ tpiYs r B i ∧ tpiYe R r B i ≤ R ∧ tpiYs r B i < tpiYe R r B i := by
  have := stripe_bounds B i hB
  simp only [tpiYs, tpiYe]
  omega

theorem curvConvAt_fin_or_nan (g : Grid ℚ) (R C B : ℕ) (cell : ℚ)
    (i j : ℕ) (hB : 0 < B) (hi : i < R) (hj : j < C)
    (hnoinf : ∀ a b : ℤ, 0 ≤ a → a < R → 0 ≤ b → b < C →
      g a b ≠ FV.inf ∧ g a b ≠ FV.ninf) :
    (∃ q, curvConvAt g R C cell B i j = FV.fin q) ∨
      curvConvAt g R C cell B i j = FV.nan := by
  obtain ⟨h1, h2, h3⟩ := curv_window_bounds R B i hB hi
  have hWin := windowAt_fin_or_nan g R C (curvYs B i) (curvYe R B i)
    h1 h2 h3 (by omega) hnoinf
  simp only [curvConvAt]
  exact fv_fin_or_nan_add (fv_fin_or_nan_add (fv_fin_or_nan_add
    (fv_fin_or_nan_add (fv_fin_or_nan_smul _ (hWin _ _))
      (fv_fin_or_nan_smul _ (hWin _ _)))
    (fv_fin_or_nan_smul _ (hWin _ _)))
    (fv_fin_or_nan_smul _ (hWin _ _)))
    (fv_fin_or_nan_smul _ (hWin _ _))

theorem tpiRawAt_fin_or_nan (g : Grid ℚ) (R C r B : ℕ)
    (i j : ℕ) (hB : 0 < B) (hi : i < R) (hj : j < C)
    (hnoinf : ∀ a b : ℤ, 0 ≤ a → a < R → 0 ≤ b → b < C →
      g a b ≠ FV.inf ∧ g a b ≠ FV.ninf) :
    (∃ q, tpiRawAt g R C r B i j = FV.fin q) ∨
      tpiRawAt g R C r B i j = FV.nan := by
  obtain ⟨h1, h2, h3⟩ := tpi_window_bounds R r B i hB hi
  have hWin := windowAt_fin_or_nan g R C (tpiYs r B i) (tpiYe R r B i)
    h1 h2 h3 (by omega) hnoinf
  apply fv_fin_or_nan_sub
  · exact hWin _ _
  · exact fv_sum_fin_or_nan _ _
      (fun d _ => fv_fin_or_nan_smul _ (hWin _ _))

/-- Counterexample to C3 as stated: with a source grid containing a
`+inf` elevation (finite everywhere else and with no NoData), the
curvature stage computes `+inf` at pixel `(0,0)` and writes it
unchanged — the `isnan` check does not catch infinities, so an infinity
reaches the output stripe. -/
theorem numeric_faults_counterexample :
    curvOut gInf 1 3 1 1 0 0 = FV.inf ∧
    (curvOut gInf 1 3 1 1 0 0).isInf = true ∧
    curvOut gInf 1 3 1 1 0 0 ≠ FV.fin NODATA := by
  have e1 : curvYs 1 0 = 0 := by
    simp [curvYs, stripeStart]
  have e2 : curvYe 1 1 0 = 1 := by
    simp [curvYe, stripeStart]
  have hinfne : (FV.inf : FV ℚ) ≠ FV.fin (-9999) := fun h => FV.noConfusion h
  have hmain : curvOut gInf 1 3 1 1 0 0 = FV.inf := by
    unfold curvOut curvConvAt
    rw [e1, e2]
    norm_num [windowAt, markNoData, gInf, iclamp, NODATA,
      FV.smul, FV.add, FV.isNan, hinfne]
  have hne : curvOut gInf 1 3 1 1 0 0 ≠ FV.fin NODATA := by
    rw [hmain]
    intro h
    exact FV.noConfusion h
  refine ⟨hmain, ?_, hne⟩
  rw [hmain]
  rfl

/-- C3 (amended): every NaN produced by curvature or TPI is replaced by
the NoData sentinel before write, and TWI replaces both NaN and ±inf;
curvature and TPI do not check infinities, but an infinite value can
only arise there when the input grid itself contains one — so for every
input with no infinite elevations, nothing non-finite (no NaN and no
infinity) is ever written by curvature, TPI or TWI (TWI needs no
hypothesis at all). -/
theorem numeric_faults_amended (g : Grid ℚ) (R C B : ℕ) (cell : ℚ)
    (r : ℕ) (i j : ℕ) (elev slope : Grid ℝ) (cellR : ℝ) (iR jR : ℕ)
    (hB : 0 < B) (hi : i < R) (hj : j < C)
    (hnoinf : ∀ a b : ℤ, 0 ≤ a → a < R → 0 ≤ b → b < C →
      g a b ≠ FV.inf ∧ g a b ≠ FV.ninf) :
    (curvOut g R C cell B i j).isFin = true ∧
    (tpiOut g R C r B i j).isFin = true ∧
    (twiOut elev slope cellR iR jR).isFin = true ∧
    ((curvConvAt g R C cell B i j).isNan = true →
      curvOut g R C cell B i j = FV.fin NODATA) ∧
    ((tpiRawAt g R C r B i j).isNan = true →
      tpiOut g R C r B i j = FV.fin NODATA) ∧
    ((twiFormula cellR (slope (iR : ℤ) (jR : ℤ))).isNan = true ∨
        (twiFormula cellR (slope (iR : ℤ) (jR : ℤ))).isInf = true →
      twiOut elev slope cellR iR jR = FV.fin (-9999 : ℝ)) := by
  refine ⟨?_, ?_, ?_, ?_, ?_, ?_⟩
  · rcases curvConvAt_fin_or_nan g R C B cell i j hB hi hj hnoinf with
      ⟨q, hq⟩ | hq <;> simp [curvOut, hq, FV.isNan, FV.isFin]
  · simp only [tpiOut]
    split_ifs with hnd hnan hnan
    · rfl
    · rfl
    · rfl
    · rcases tpiRawAt_fin_or_nan g R C r B i j hB hi hj hnoinf with
        ⟨q, hq⟩ | hq
      · rw [hq]
        rfl
      · rw [hq] at hnan
        exact absurd rfl hnan
  · simp only [twiOut]
    split_ifs with hnd hbad hbad
    · rfl
    · rfl
    · rfl
    · rcases hf : twiFormula cellR (slope (iR : ℤ) (jR : ℤ)) with
        q | _ | _ | _ <;> rw [hf] at hbad <;>
        simp_all [FV.isNan, FV.isInf, FV.isFin]
  · intro hnan
    simp [curvOut, hnan]
  · intro hnan
    simp only [tpiOut]
    split_ifs <;> rfl
  · intro hbad
    simp only [twiOut]
    split_ifs with hnd hbad2 hbad2
    · rfl
    · rfl
    · rfl
    · rcases hbad with hb | hb <;> simp [hb] at hbad2

/-- Witness for the amended C3 on an all-zero grid. -/
theorem numeric_faults_amended_witness :
    (curvOut gZeroQ 2 2 1 1 0 0).isFin = true ∧
    (tpiOut gZeroQ 2 2 1 1 0 0).isFin = true ∧
    (twiOut gZeroR gZeroR 30 0 0).isFin = true ∧
    ((curvConvAt gZeroQ 2 2 1 1 0 0).isNan = true →
      curvOut gZeroQ 2 2 1 1 0 0 = FV.fin NODATA) ∧
    ((tpiRawAt gZeroQ 2 2 1 1 0 0).isNan = true →
      tpiOut gZeroQ 2 2 1 1 0 0 = FV.fin NODATA) ∧
    ((twiFormula 30 (gZeroR (0 : ℕ) (0 : ℕ))).isNan = true ∨
        (twiFormula 30 (gZeroR (0 : ℕ) (0 : ℕ))).isInf = true →
      twiOut gZeroR gZeroR 30 0 0 = FV.fin (-9999 : ℝ)) :=
  numeric_faults_amended gZeroQ 2 2 1 1 1 0 0 gZeroR gZeroR 30 0 0
    (by norm_num) (by norm_num) (by norm_num)
    (fun a b _ _ _ _ => by constructor <;> simp [gZeroQ])

/-- C8: the ecological-zone classifier maps elevation 250 to code 1,
3000 to code 3, 5000 to code 6 and the NoData sentinel to code 0; in
general, every elevation inside a band of `PISOS_SIMPLE` (lower bound
inclusive, upper bound exclusive) gets that band's code, the bands are
pairwise disjoint (so the band is unique), and an elevation matching no
band gets code 0. -/
theorem pisos_classifier_correct :
    pisosClassify (FV.fin 250) = 1 ∧
    pisosClassify (FV.fin 3000) = 3 ∧
    pisosClassify (FV.fin 5000) = 6 ∧
    pisosClassify (FV.fin NODATA) = 0 ∧
    (∀ e : ℚ, ∀ b ∈ pisosSimple, b.1 ≤ e → e < b.2.1 →
      pisosClassify (FV.fin e) = b.2.2) ∧
    (∀ e : ℚ, ∀ b1 ∈ pisosSimple, ∀ b2 ∈ pisosSimple,
      b1.1 ≤ e → e < b1.2.1 → b2.1 ≤ e → e < b2.2.1 → b1 = b2) ∧
    (∀ e : ℚ, (∀ b ∈ pisosSimple, ¬(b.1 ≤ e ∧ e < b.2.1)) →
      pisosClassify (FV.fin e) = 0) := by
  refine ⟨by decide, by decide, by decide, by decide, ?_, ?_, ?_⟩
  · intro e b hb hlo hhi
    simp only [pisosSimple, List.mem_cons, List.not_mem_nil, or_false] at hb
    have hnd : e ≠ -9999 := by
      rcases hb with h | h | h | h | h | h <;> subst h <;>
        simp only at hlo hhi <;> linarith
    rw [pisosClassify_fin e hnd]
    rcases hb with h | h | h | h | h | h <;> subst h <;> simp only at hlo hhi ⊢
    · rw [if_neg (by rintro ⟨ha, _⟩; linarith),
          if_neg (by rintro ⟨ha, _⟩; linarith),
          if_neg (by rintro ⟨ha, _⟩; linarith),
          if_neg (by rintro ⟨ha, _⟩; linarith),
          if_neg (by rintro ⟨ha, _⟩; linarith), if_pos ⟨hlo, hhi⟩]
    · rw [if_neg (by rintro ⟨ha, _⟩; linarith),
          if_neg (by rintro ⟨ha, _⟩; linarith),
          if_neg (by rintro ⟨ha, _⟩; linarith),
          if_neg (by rintro ⟨ha, _⟩; linarith), if_pos ⟨hlo, hhi⟩]
    · rw [if_neg (by rintro ⟨ha, _⟩; linarith),
          if_neg (by rintro ⟨ha, _⟩; linarith),
          if_neg (by rintro ⟨ha, _⟩; linarith), if_pos ⟨hlo, hhi⟩]
    · rw [if_neg (by rintro ⟨ha, _⟩; linarith),
          if_neg (by rintro ⟨ha, _⟩; linarith), if_pos ⟨hlo, hhi⟩]
    · rw [if_neg (by rintro ⟨ha, _⟩; linarith), if_pos ⟨hlo, hhi⟩]
    · rw [if_pos ⟨hlo, hhi⟩]
  · intro e b1 hb1 b2 hb2 hlo1 hhi1 hlo2 hhi2
    simp only [pisosSimple, List.mem_cons, List.not_mem_nil, or_false]
      at hb1 hb2
    rcases hb1 with h | h | h | h | h | h <;> subst h <;>
      rcases hb2 with h | h | h | h | h | h <;> subst h <;>
      first
      | rfl
      | (exfalso; simp only at hlo1 hhi1 hlo2 hhi2; linarith)
  · intro e hnone
    by_cases hnd : e = -9999
    · subst hnd
      decide
    · have h1 := hnone (0, 500, 1) (by simp [pisosSimple])
      have h2 := hnone (500, 2300, 2) (by simp [pisosSimple])
      have h3 := hnone (2300, 3500, 3) (by simp [pisosSimple])
      have h4 := hnone (3500, 4000, 4) (by simp [pisosSimple])
      have h5 := hnone (4000, 4800, 5) (by simp [pisosSimple])
      have h6 := hnone (4800, 99999, 6) (by simp [pisosSimple])
      simp only at h1 h2 h3 h4 h5 h6
      rw [pisosClassify_fin e hnd, if_neg h6, if_neg h5, if_neg h4,
        if_neg h3, if_neg h2, if_neg h1]

/-- Witness for C8: the general band clause of the theorem applied to
elevation 700 and the Yunga band. -/
theorem pisos_classifier_correct_witness :
    pisosClassify (FV.fin 700) = 2 :=
  pisos_classifier_correct.2.2.2.2.1 700 (500, 2300, 2)
    (by simp [pisosSimple]) (by norm_num) (by norm_num)

/-- Witness for C1 at `R = 5`, `B = 2`, `H = 3`. -/
theorem scheduler_blockplans_correct_witness :
    (blockPlans 5 2 3).length = numBlocks 5 2 ∧
    blockPlans 5 2 3 ≠ [] ∧
    (∀ p ∈ blockPlans 5 2 3,
      p.readStart = max (p.y0 - (3 : ℕ)) 0 ∧
      p.readEnd = min (p.y0 + (2 : ℕ) + (3 : ℕ)) (5 : ℕ) ∧
      p.writeCount = min ((2 : ℕ) : ℤ) ((5 : ℕ) - p.y0) ∧
      p.trimTop = p.y0 - p.readStart ∧
      p.trimBot = p.readEnd - (p.y0 + p.writeCount) ∧
      0 ≤ p.trimTop ∧ 0 ≤ p.trimBot ∧
      (p.readEnd - p.readStart) - p.trimTop - p.trimBot = p.writeCount) ∧
    (∀ x : ℤ, 0 ≤ x → x < (5 : ℕ) →
      (blockPlans 5 2 3).countP
        (fun p => decide (p.y0 ≤ x ∧ x < p.y0 + p.writeCount)) = 1) ∧
    (∃ p, (blockPlans 5 2 3).getLast? = some p ∧
      p.y0 + p.writeCount = (5 : ℕ)) :=
  scheduler_blockplans_correct 5 2 3 (by norm_num) (by norm_num)

theorem runStage_ok_sub (env : Env) (fs fs1 : List String) (d : Deriv)
    (h : runStage env fs d = .ok fs1) :
    (∀ x ∈ fs, x ∈ fs1) ∧ outName d ∈ fs1 := by
  cases d <;> simp only [runStage] at h <;> split_ifs at h <;>
    first
    | exact Except.noConfusion h
    | (injection h with h2
       subst h2
       exact ⟨fun x hx => List.mem_cons_of_mem _ hx, List.mem_cons_self _ _⟩)

theorem runStage_error_shape (env : Env) (fs : List String) (d : Deriv)
    (err : RunErr) (h : runStage env fs d = .error err) :
    err = .gdalError d ∨
      (d = .twiD ∧ err = .slopeMissing ∧ "pendiente.tif" ∉ fs) := by
  cases d <;> simp only [runStage] at h <;> split_ifs at h <;>
    first
    | exact Except.noConfusion h
    | (injection h with h2
       subst h2
       simp_all)

/-- With no force flag and every output already present, the catalog is
a pure skip: no stage is invoked, the file set is unchanged. -/
theorem runCatalog_skip_all (env : Env) (entries : List Deriv)
    (fs : List String) (hall : ∀ d ∈ entries, outName d ∈ fs) :
    runCatalog env false entries fs =
      (entries.map Action.skip, .ok (fs, 0, entries.length)) := by
  induction entries with
  | nil => rfl
  | cons e rest ih =>
    have he : outName e ∈ fs := hall e (List.mem_cons_self _ _)
    simp only [runCatalog]
    split_ifs with hc
    · rw [ih (fun d hd => hall d (List.mem_cons_of_mem _ hd))]
      simp [List.length_cons]
    · exact absurd ⟨he, trivial⟩ hc

/-- A successful catalog run only adds files and creates every entry's
output. -/
theorem runCatalog_ok_outputs (env : Env) (force : Bool)
    (entries : List Deriv) :
    ∀ (fs fs2 : List String) (tr : List Action) (c s : ℕ),
    runCatalog env force entries fs = (tr, .ok (fs2, c, s)) →
    (∀ x ∈ fs, x ∈ fs2) ∧ (∀ d ∈ entries, outName d ∈ fs2) := by
  induction entries with
  | nil =>
    intro fs fs2 tr c s h
    simp only [runCatalog] at h
    injection h with h1 h2
    injection h2 with h3
    injection h3 with h4 h5
    subst h4
    exact ⟨fun x hx => hx, fun d hd => absurd hd (List.not_mem_nil d)⟩
  | cons e rest ih =>
    intro fs fs2 tr c s h
    simp only [runCatalog] at h
    split_ifs at h with hc
    · rcases hres : runCatalog env force rest fs with ⟨tr2, res2⟩
      rw [hres] at h
      cases res2 with
      | ok y =>
        rcases y with ⟨fsr, cr, sr⟩
        dsimp only at h
        injection h with h1 h2
        injection h2 with h3
        injection h3 with h4 h5
        subst h4
        obtain ⟨hsub, hrest⟩ := ih fs fsr tr2 cr sr hres
        refine ⟨hsub, fun d hd => ?_⟩
        rcases List.mem_cons.mp hd with hde | hdr
        · subst hde
          exact hsub _ hc.1
        · exact hrest d hdr
      | error err =>
        dsimp only at h
        injection h with h1 h2
        exact Except.noConfusion h2
    · cases hst : runStage env fs e with
      | error err =>
        rw [hst] at h
        dsimp only at h
        injection h with h1 h2
        exact Except.noConfusion h2
      | ok fs1 =>
        rw [hst] at h
        dsimp only at h
        rcases hres : runCatalog env force rest fs1 with ⟨tr2, res2⟩
        rw [hres] at h
        cases res2 with
        | ok y =>
          rcases y with ⟨fsr, cr, sr⟩
          dsimp only at h
          injection h with h1 h2
          injection h2 with h3
          injection h3 with h4 h5
          subst h4
          obtain ⟨hsub1, hout1⟩ := runStage_ok_sub env fs fs1 e hst
          obtain ⟨hsub, hrest⟩ := ih fs1 fsr tr2 cr sr hres
          refine ⟨fun x hx => hsub x (hsub1 x hx), fun d hd => ?_⟩
          rcases List.mem_cons.mp hd with hde | hdr
          · subst hde
            exact hsub _ hout1
          · exact hrest d hdr
        | error err =>
          dsimp only at h
          injection h with h1 h2
          exact Except.noConfusion h2

/-- With no force flag, an entry whose output already exists is never
computed, whatever happens to the rest of the catalog. -/
theorem runCatalog_no_recompute (env : Env) (d : Deriv)
    (entries : List Deriv) :
    ∀ (fs : List String) (tr : List Action)
      (res : Except RunErr (List String × ℕ × ℕ)),
    outName d ∈ fs →
    runCatalog env false entries fs = (tr, res) →
    Action.compute d ∉ tr := by
  induction entries with
  | nil =>
    intro fs tr res hout h
    simp only [runCatalog] at h
    injection h with h1 h2
    rw [← h1]
    exact List.not_mem_nil _
  | cons e rest ih =>
    intro fs tr res hout h
    simp only [runCatalog] at h
    split_ifs at h with hc
    · rcases hres : runCatalog env false rest fs with ⟨tr2, res2⟩
      rw [hres] at h
      dsimp only at h
      injection h with h1 h2
      rw [← h1]
      intro hmem
      rcases List.mem_cons.mp hmem with habs | hmem2
      · exact Action.noConfusion habs
      · exact ih fs tr2 res2 hout hres hmem2
    · have hne : e ≠ d := by
        intro he
        subst he
        exact hc ⟨hout, trivial⟩
      cases hst : runStage env fs e with
      | error err =>
        rw [hst] at h
        dsimp only at h
        injection h with h1 h2
        rw [← h1]
        intro hmem
        rcases List.mem_cons.mp hmem with habs | hmem2
        · exact hne (by injection habs with h3; exact h3.symm)
        · exact List.not_mem_nil _ hmem2
      | ok fs1 =>
        rw [hst] at h
        dsimp only at h
        rcases hres : runCatalog env false rest fs1 with ⟨tr2, res2⟩
        rw [hres] at h
        dsimp only at h
        injection h with h1 h2
        rw [← h1]
        intro hmem
        rcases List.mem_cons.mp hmem with habs | hmem2
        · exact hne (by injection habs with h3; exact h3.symm)
        · have hout1 : outName d ∈ fs1 :=
            (runStage_ok_sub env fs fs1 e hst).1 _ hout
          exact ih fs1 tr2 res2 hout1 hres hmem2

/-- With no force flag and the entry's output present, a successful run
records a skip for that entry. -/
theorem runCatalog_skip_recorded (env : Env) (d : Deriv)
    (entries : List Deriv) :
    ∀ (fs fs2 : List String) (tr : List Action) (c s : ℕ),
    d ∈ entries → outName d ∈ fs →
    runCatalog env false entries fs = (tr, .ok (fs2, c, s)) →
    Action.skip d ∈ tr := by
  induction entries with
  | nil =>
    intro fs fs2 tr c s hd
    exact absurd hd (List.not_mem_nil d)
  | cons e rest ih =>
    intro fs fs2 tr c s hd hout h
    simp only [runCatalog] at h
    split_ifs at h with hc
    · rcases hres : runCatalog env false rest fs with ⟨tr2, res2⟩
      rw [hres] at h
      cases res2 with
      | ok y =>
        rcases y with ⟨fsr, cr, sr⟩
        dsimp only at h
        injection h with h1 h2
        rw [← h1]
        rcases List.mem_cons.mp hd with hde | hdr
        · subst hde
          exact List.mem_cons_self _ _
        · exact List.mem_cons_of_mem _
            (ih fs fsr tr2 cr sr hdr hout hres)
      | error err =>
        dsimp only at h
        injection h with h1 h2
        exact Except.noConfusion h2
    · have hne : e ≠ d := by
        intro he
        subst he
        exact hc ⟨hout, trivial⟩
      cases hst : runStage env fs e with
      | error err =>
        rw [hst] at h
        dsimp only at h
        injection h with h1 h2
        exact Except.noConfusion h2
      | ok fs1 =>
        rw [hst] at h
        dsimp only at h
        rcases hres : runCatalog env false rest fs1 with ⟨tr2, res2⟩
        rw [hres] at h
        cases res2 with
        | ok y =>
          rcases y with ⟨fsr, cr, sr⟩
          dsimp only at h
          injection h with h1 h2
          rw [← h1]
          rcases List.mem_cons.mp hd with hde | hdr
          · exact absurd hde.symm hne
          · have hout1 : outName d ∈ fs1 :=
              (runStage_ok_sub env fs fs1 e hst).1 _ hout
            exact List.mem_cons_of_mem _
              (ih fs1 fsr tr2 cr sr hdr hout1 hres)
        | error err =>
          dsimp only at h
          injection h with h1 h2
          exact Except.noConfusion h2

/-- Once `pendiente.tif` exists, no later catalog entry can raise the
missing-slope error. -/
theorem runCatalog_no_slopeMissing (env : Env) (force : Bool)
    (entries : List Deriv) :
    ∀ fs : List String, "pendiente.tif" ∈ fs →
    (runCatalog env force entries fs).2 ≠ .error .slopeMissing := by
  induction entries with
  | nil =>
    intro fs hp
    simp [runCatalog]
  | cons e rest ih =>
    intro fs hp
    simp only [runCatalog]
    split_ifs with hc
    · have hthis := ih fs hp
      generalize hres : runCatalog env force rest fs = pr at hthis ⊢
      obtain ⟨tr2, res2⟩ := pr
      cases res2 with
      | ok y =>
        rcases y with ⟨fsr, cr, sr⟩
        simp
      | error err => simpa using hthis
    · cases hst : runStage env fs e with
      | error err =>
        rcases runStage_error_shape env fs e err hst with hsh | ⟨-, -, habs⟩
        · subst hsh
          simp
        · exact absurd hp habs
      | ok fs1 =>
        have hp1 : "pendiente.tif" ∈ fs1 :=
          (runStage_ok_sub env fs fs1 e hst).1 _ hp
        have hthis := ih fs1 hp1
        dsimp only
        generalize hres : runCatalog env force rest fs1 = pr at hthis ⊢
        obtain ⟨tr2, res2⟩ := pr
        cases res2 with
        | ok y =>
          rcases y with ⟨fsr, cr, sr⟩
          simp
        | error err => simpa using hthis

/-- A catalog starting with the slope entry can never raise the
missing-slope error: the slope entry either finds its output present or
creates it, so `pendiente.tif` exists by the time any later entry
(in particular TWI) runs. -/
theorem runCatalog_pend_first_no_slopeMissing (env : Env) (force : Bool)
    (rest : List Deriv) (fs : List String) :
    (runCatalog env force (Deriv.pendiente :: rest) fs).2 ≠
      Except.error RunErr.slopeMissing := by
  simp only [runCatalog]
  split_ifs with hc
  · have hp : "pendiente.tif" ∈ fs := hc.1
    have hthis := runCatalog_no_slopeMissing env force rest fs hp
    dsimp only
    generalize hres : runCatalog env force rest fs = pr at hthis ⊢
    obtain ⟨tr2, res2⟩ := pr
    cases res2 with
    | ok y =>
      rcases y with ⟨a, b, c⟩
      simp
    | error err => simpa using hthis
  · cases hst : runStage env fs Deriv.pendiente with
    | error err =>
      rcases runStage_error_shape env fs _ err hst with hsh | ⟨habs, -, -⟩
      · subst hsh
        simp
      · exact Deriv.noConfusion habs
    | ok fs1 =>
      have hp1 : "pendiente.tif" ∈ fs1 :=
        (runStage_ok_sub env fs fs1 _ hst).2
      have hthis := runCatalog_no_slopeMissing env force rest fs1 hp1
      dsimp only
      generalize hres : runCatalog env force rest fs1 = pr at hthis ⊢
      obtain ⟨tr2, res2⟩ := pr
      cases res2 with
      | ok y =>
        rcases y with ⟨a, b, c⟩
        simp
      | error err => simpa using hthis

theorem mainRun_no_slopeMissing (env : Env) (force : Bool)
    (fs : List String) :
    (mainRun true env force fs).2 ≠ Except.error RunErr.slopeMissing := by
  unfold mainRun
  rw [if_pos rfl]
  unfold catalog
  exact runCatalog_pend_first_no_slopeMissing env force _ fs

/-- C4: for every catalog derivative whose output file already exists,
with the force flag clear, the orchestrator never invokes that compute
stage (and records a skip whenever the run completes); consequently a
second run over the file set produced by any successful run performs
zero compute invocations: every entry is a pure skip, the file set is
unchanged, and the skip counter equals the catalog length. -/
theorem orchestrator_skip_idempotent
    (env1 env2 : Env) (force1 : Bool) (fs fs1 fs2 : List String)
    (tr1 tr2 : List Action) (c s : ℕ) (d : Deriv)
    (res2 : Except RunErr (List String × ℕ × ℕ))
    (hd : d ∈ catalog) (hout : outName d ∈ fs2)
    (hrun2 : mainRun true env2 false fs2 = (tr2, res2))
    (hrun1 : mainRun true env1 force1 fs = (tr1, Except.ok (fs1, c, s))) :
    Action.compute d ∉ tr2 ∧
    (∀ fsr cc ss, res2 = Except.ok (fsr, cc, ss) → Action.skip d ∈ tr2) ∧
    mainRun true env2 false fs1 =
      (catalog.map Action.skip, Except.ok (fs1, 0, catalog.length)) ∧
    (∀ e : Deriv, Action.compute e ∉ catalog.map Action.skip) := by
  have hm2 : runCatalog env2 false catalog fs2 = (tr2, res2) := by
    simpa [mainRun] using hrun2
  have hm1 : runCatalog env1 force1 catalog fs =
      (tr1, Except.ok (fs1, c, s)) := by
    simpa [mainRun] using hrun1
  refine ⟨?_, ?_, ?_, ?_⟩
  · exact runCatalog_no_recompute env2 d catalog fs2 tr2 res2 hout hm2
  · intro fsr cc ss hres
    subst hres
    exact runCatalog_skip_recorded env2 d catalog fs2 fsr tr2 cc ss hd
      hout hm2
  · have hall :=
      (runCatalog_ok_outputs env1 force1 catalog fs fs1 tr1 c s hm1).2
    unfold mainRun
    rw [if_pos rfl]
    exact runCatalog_skip_all env2 catalog fs1 hall
  · intro e hmem
    simp only [List.mem_map] at hmem
    obtain ⟨x, -, habs⟩ := hmem
    exact Action.noConfusion habs

/-- Witness for C4: a first full run from an empty directory, then a
second run over its outputs, checked on the curvature entry. -/
theorem orchestrator_skip_idempotent_witness :
    Action.compute Deriv.curvatura ∉ catalog.map Action.skip ∧
    (∀ fsr cc ss,
      (Except.ok (fsAll, 0, 8) :
          Except RunErr (List String × ℕ × ℕ)) =
        Except.ok (fsr, cc, ss) →
      Action.skip Deriv.curvatura ∈ catalog.map Action.skip) ∧
    mainRun true envOk false fsAll =
      (catalog.map Action.skip, Except.ok (fsAll, 0, catalog.length)) ∧
    (∀ e : Deriv, Action.compute e ∉ catalog.map Action.skip) :=
  orchestrator_skip_idempotent envOk envOk false [] fsAll fsAll
    (catalog.map Action.compute) (catalog.map Action.skip) 8 0
    Deriv.curvatura (Except.ok (fsAll, 0, 8))
    (by decide) (by decide) rfl rfl

/-- Counterexample to C6's propagation-policy clause: with a readable
input, an empty output directory and the slope stage's external GDAL
work failing, the whole run aborts at the first entry — the next
catalog entry (rugosidad) is neither computed nor skipped, so a
per-derivative failure is pipeline-fatal, not logged-and-continued. -/
theorem twi_policy_counterexample :
    (mainRun true envFailPend false []).2 =
      Except.error (RunErr.gdalError Deriv.pendiente) ∧
    (mainRun true envFailPend false []).1 =
      [Action.compute Deriv.pendiente] ∧
    Action.compute Deriv.rugosidad ∉ (mainRun true envFailPend false []).1 ∧
    Action.skip Deriv.rugosidad ∉ (mainRun true envFailPend false []).1 :=
  ⟨rfl, rfl, by decide, by decide⟩

/-- C6 (amended): `compute_twi` fails fast with its typed
`FileNotFoundError` when the slope raster is absent, before creating
any output and without recomputing slope; but the orchestrator has no
per-derivative error handling — an exception from a compute stage
aborts the whole remaining run (shown for a failing slope stage) — and
in a full orchestrator run the missing-slope error can never fire,
because the slope entry precedes TWI in the catalog. -/
theorem twi_missing_slope_behavior (env : Env) (fs fsx : List String)
    (hnop : "pendiente.tif" ∉ fsx)
    (hnos : "pendiente.tif" ∉ fs)
    (hfail : env.collabOk Deriv.pendiente = false) :
    runStage env fsx Deriv.twiD = Except.error RunErr.slopeMissing ∧
    mainRun true env false fs =
      ([Action.compute Deriv.pendiente],
        Except.error (RunErr.gdalError Deriv.pendiente)) ∧
    (∀ (envA : Env) (forceA : Bool) (fsA : List String),
      (mainRun true envA forceA fsA).2 ≠
        Except.error RunErr.slopeMissing) := by
  refine ⟨?_, ?_, fun envA forceA fsA => mainRun_no_slopeMissing envA forceA fsA⟩
  · simp only [runStage]
    rw [if_neg hnop]
  · unfold mainRun
    rw [if_pos rfl]
    unfold catalog
    simp only [runCatalog]
    have hcond : ¬(outName Deriv.pendiente ∈ fs ∧ True) := by
      simp [outName, hnos]
    rw [if_neg hcond]
    have hst : runStage env fs Deriv.pendiente =
        Except.error (RunErr.gdalError Deriv.pendiente) := by
      simp only [runStage]
      rw [if_neg (by simp [hfail])]
    rw [hst]

/-- Witness for the amended C6 with the concrete failing environment. -/
theorem twi_missing_slope_behavior_witness :
    runStage envFailPend [] Deriv.twiD =
      Except.error RunErr.slopeMissing ∧
    mainRun true envFailPend false [] =
      ([Action.compute Deriv.pendiente],
        Except.error (RunErr.gdalError Deriv.pendiente)) ∧
    (∀ (envA : Env) (forceA : Bool) (fsA : List String),
      (mainRun true envA forceA fsA).2 ≠
        Except.error RunErr.slopeMissing) :=
  twi_missing_slope_behavior envFailPend [] []
    (by decide) (by decide) (by decide)

/-- Counterexample to C7: with the negative radius `-1`, `compute_tpi`
is not rejected: it creates the output raster and reads the first
stripe (raster I/O) and only then fails, with a scipy shape error
rather than a configuration error; and with radius `0` nothing fails at
all (scipy drops the kernel's single NaN weight from its footprint, so
the run completes without any error). -/
theorem radius_validation_counterexample :
    (tpiRun (-1) 5).1 = [TpiEv.create, TpiEv.readStripe 0] ∧
    (tpiRun (-1) 5).2 = Except.error TpiErr.badKernelShape ∧
    TpiEv.create ∈ (tpiRun (-1) 5).1 ∧
    (tpiRun 0 5).2 = Except.ok () :=
  ⟨by decide, rfl, by decide, rfl⟩

theorem markNoData_eq_fin (g : Grid ℚ) (a b : ℤ) (q : ℚ)
    (hg : g a b = FV.fin q) (hq : q ≠ NODATA) :
    markNoData g a b = FV.fin q := by
  unfold markNoData
  rw [hg, if_neg (by simp [FV.fin.injEq, hq])]

theorem markNoData_nodata (g : Grid ℚ) (a b : ℤ)
    (hg : g a b = FV.fin NODATA) :
    markNoData g a b = FV.nan := by
  unfold markNoData
  rw [if_pos hg]

/-- The curvature convolution at a write pixel, written with
whole-raster clamped accesses: the stripe window and its halo of 1 make
the window-local clamping agree with global clamping. -/
theorem curvConvAt_clamped (g : Grid ℚ) (R C B : ℕ) (cell : ℚ)
    (i j : ℕ) (hB : 0 < B) (hi : i < R) :
    curvConvAt g R C cell B i j =
      FV.add (FV.add (FV.add (FV.add
        (FV.smul (-4 / cell ^ 2)
          (markNoData g (iclamp R (i : ℤ)) (iclamp C (j : ℤ))))
        (FV.smul (1 / cell ^ 2)
          (markNoData g (iclamp R ((i : ℤ) - 1)) (iclamp C (j : ℤ)))))
        (FV.smul (1 / cell ^ 2)
          (markNoData g (iclamp R ((i : ℤ) + 1)) (iclamp C (j : ℤ)))))
        (FV.smul (1 / cell ^ 2)
          (markNoData g (iclamp R (i : ℤ)) (iclamp C ((j : ℤ) - 1)))))
        (FV.smul (1 / cell ^ 2)
          (markNoData g (iclamp R (i : ℤ)) (iclamp C ((j : ℤ) + 1)))) := by
  have hsb := stripe_bounds B i hB
  simp only [curvConvAt, windowAt]
  have h0 : curvYs B i + iclamp (curvYe R B i - curvYs B i)
      ((i : ℤ) - curvYs B i) = iclamp R (i : ℤ) := by
    simp only [curvYs, curvYe, iclamp]
    omega
  have hm : curvYs B i + iclamp (curvYe R B i - curvYs B i)
      ((i : ℤ) - curvYs B i - 1) = iclamp R ((i : ℤ) - 1) := by
    simp only [curvYs, curvYe, iclamp]
    omega
  have hp : curvYs B i + iclamp (curvYe R B i - curvYs B i)
      ((i : ℤ) - curvYs B i + 1) = iclamp R ((i : ℤ) + 1) := by
    simp only [curvYs, curvYe, iclamp]
    omega
  rw [h0, hm, hp]

theorem annulus_mem_bounds (r : ℕ) (d : ℤ × ℤ) (hd : d ∈ annulus r) :
    -(r : ℤ) ≤ d.1 ∧ d.1 ≤ r ∧ -(r : ℤ) ≤ d.2 ∧ d.2 ≤ r ∧
      0 < d.1 ^ 2 + d.2 ^ 2 ∧ d.1 ^ 2 + d.2 ^ 2 ≤ (r : ℤ) ^ 2 := by
  simp only [annulus, Finset.mem_filter, Finset.mem_product,
    Finset.mem_Icc] at hd
  tauto

theorem annulus_mem_iff (r : ℕ) (d : ℤ × ℤ) :
    d ∈ annulus r ↔ 0 < d.1 ^ 2 + d.2 ^ 2 ∧ d.1 ^ 2 + d.2 ^ 2 ≤ (r : ℤ) ^ 2 := by
  simp only [annulus, Finset.mem_filter, Finset.mem_product,
    Finset.mem_Icc]
  constructor
  · tauto
  · rintro ⟨h1, h2⟩
    have hd1 : d.1 ^ 2 ≤ (r : ℤ) ^ 2 := by nlinarith [sq_nonneg d.2]
    have hd2 : d.2 ^ 2 ≤ (r : ℤ) ^ 2 := by nlinarith [sq_nonneg d.1]
    have hr0 : (0 : ℤ) ≤ (r : ℤ) := by positivity
    refine ⟨⟨⟨?_, ?_⟩, ?_, ?_⟩, h1, h2⟩ <;> nlinarith

theorem annCount_pos (r : ℕ) (hr : 1 ≤ r) : 0 < annCount r := by
  apply Finset.card_pos.mpr
  refine ⟨((0 : ℤ), (1 : ℤ)), ?_⟩
  rw [annulus_mem_iff]
  have hr1 : (1 : ℤ) ≤ (r : ℤ) := by exact_mod_cast hr
  constructor
  · dsimp only
    norm_num
  · dsimp only
    nlinarith

theorem annulus_sum_snd_zero (r : ℕ) :
    (∑ d ∈ annulus r, d.2) = 0 := by
  apply Finset.sum_involution (fun d _ => (d.1, -d.2))
  · intro d hd
    ring
  · intro d hd hne
    intro habs
    apply hne
    have := congrArg Prod.snd habs
    simp only at this
    omega
  · intro d hd
    simp
  · intro d hd
    rw [annulus_mem_iff] at hd ⊢
    simpa [neg_sq] using hd

theorem ramp_ne_nodata (b : ℤ) (cell : ℚ) (hb : 0 ≤ b) (hc : 0 < cell) :
    ((b : ℚ) * cell) ≠ NODATA := by
  have hb2 : (0 : ℚ) ≤ (b : ℚ) := by exact_mod_cast hb
  have hnn : 0 ≤ (b : ℚ) * cell := mul_nonneg hb2 hc.le
  unfold NODATA
  intro h
  rw [h] at hnn
  norm_num at hnn

/-- The TPI annular mean at a write pixel, written with whole-raster
clamped accesses: the halo of `radius` rows makes window-local clamping
agree with global clamping. -/
theorem tpiMeanAt_clamped (g : Grid ℚ) (R C r B : ℕ) (i j : ℕ)
    (hB : 0 < B) (hi : i < R) :
    tpiMeanAt g R C r B i j =
      ∑ d ∈ annulus r,
        FV.smul (1 / (annCount r : ℚ))
          (markNoData g (iclamp R ((i : ℤ) + d.1))
            (iclamp C ((j : ℤ) + d.2))) := by
  unfold tpiMeanAt windowAt
  refine Finset.sum_congr rfl (fun d hd => ?_)
  obtain ⟨hb1, hb2, -, -, -, -⟩ := annulus_mem_bounds r d hd
  rw [tpi_row_eq R r B i d.1 hB hi hb1 hb2]

/-- C9: on a synthetic constant elevation grid and on a linear ramp
(`elevation = column · cell_size`), both free of NoData, the curvature
output is 0 and the TPI output is 0 at every pixel farther than the
respective kernel radius (1 for curvature, `r` for TPI) from the raster
edges. -/
theorem flat_ramp_interior_zero (g1 g2 : Grid ℚ) (R C B r : ℕ)
    (cell cval : ℚ) (i j iT jT : ℕ)
    (hB : 0 < B) (hcell : 0 < cell) (hr : 1 ≤ r) (hcv : cval ≠ NODATA)
    (hg1 : ∀ a b : ℤ, 0 ≤ a → a < R → 0 ≤ b → b < C → g1 a b = FV.fin cval)
    (hg2 : ∀ a b : ℤ, 0 ≤ a → a < R → 0 ≤ b → b < C →
      g2 a b = FV.fin ((b : ℚ) * cell))
    (hi1 : 1 ≤ i) (hi2 : i + 1 < R) (hj1 : 1 ≤ j) (hj2 : j + 1 < C)
    (hiT1 : r ≤ iT) (hiT2 : iT + r < R) (hjT1 : r ≤ jT) (hjT2 : jT + r < C) :
    curvOut g1 R C cell B i j = FV.fin 0 ∧
    curvOut g2 R C cell B i j = FV.fin 0 ∧
    tpiOut g1 R C r B iT jT = FV.fin 0 ∧
    tpiOut g2 R C r B iT jT = FV.fin 0 := by
  have hiR : i < R := by omega
  have hjC : j < C := by omega
  have hiTR : iT < R := by omega
  have hjTC : jT < C := by omega
  have c0 : iclamp R (i : ℤ) = (i : ℤ) := by
    simp only [iclamp]
    omega
  have cm : iclamp R ((i : ℤ) - 1) = (i : ℤ) - 1 := by
    simp only [iclamp]
    omega
  have cp : iclamp R ((i : ℤ) + 1) = (i : ℤ) + 1 := by
    simp only [iclamp]
    omega
  have d0 : iclamp C (j : ℤ) = (j : ℤ) := by
    simp only [iclamp]
    omega
  have dm : iclamp C ((j : ℤ) - 1) = (j : ℤ) - 1 := by
    simp only [iclamp]
    omega
  have dp : iclamp C ((j : ℤ) + 1) = (j : ℤ) + 1 := by
    simp only [iclamp]
    omega
  have hcnt : ((annCount r : ℚ)) ≠ 0 := by
    exact_mod_cast (annCount_pos r hr).ne'
  have hcard : (((annulus r).card : ℕ) : ℚ) = (annCount r : ℚ) := rfl
  refine ⟨?_, ?_, ?_, ?_⟩
  · simp only [curvOut]
    rw [curvConvAt_clamped g1 R C B cell i j hB hiR, c0, cm, cp, d0, dm, dp,
      markNoData_eq_fin g1 (i : ℤ) (j : ℤ) cval
        (hg1 _ _ (by omega) (by omega) (by omega) (by omega)) hcv,
      markNoData_eq_fin g1 ((i : ℤ) - 1) (j : ℤ) cval
        (hg1 _ _ (by omega) (by omega) (by omega) (by omega)) hcv,
      markNoData_eq_fin g1 ((i : ℤ) + 1) (j : ℤ) cval
        (hg1 _ _ (by omega) (by omega) (by omega) (by omega)) hcv,
      markNoData_eq_fin g1 (i : ℤ) ((j : ℤ) - 1) cval
        (hg1 _ _ (by omega) (by omega) (by omega) (by omega)) hcv,
      markNoData_eq_fin g1 (i : ℤ) ((j : ℤ) + 1) cval
        (hg1 _ _ (by omega) (by omega) (by omega) (by omega)) hcv]
    simp only [fv_smul_fin, fv_fin_add_fin]
    rw [show -4 / cell ^ 2 * cval + 1 / cell ^ 2 * cval +
        1 / cell ^ 2 * cval + 1 / cell ^ 2 * cval + 1 / cell ^ 2 * cval
        = 0 from by ring]
    rfl
  · simp only [curvOut]
    rw [curvConvAt_clamped g2 R C B cell i j hB hiR, c0, cm, cp, d0, dm, dp,
      markNoData_eq_fin g2 (i : ℤ) (j : ℤ) (((j : ℤ) : ℚ) * cell)
        (hg2 _ _ (by omega) (by omega) (by omega) (by omega))
        (ramp_ne_nodata _ cell (by omega) hcell),
      markNoData_eq_fin g2 ((i : ℤ) - 1) (j : ℤ) (((j : ℤ) : ℚ) * cell)
        (hg2 _ _ (by omega) (by omega) (by omega) (by omega))
        (ramp_ne_nodata _ cell (by omega) hcell),
      markNoData_eq_fin g2 ((i : ℤ) + 1) (j : ℤ) (((j : ℤ) : ℚ) * cell)
        (hg2 _ _ (by omega) (by omega) (by omega) (by omega))
        (ramp_ne_nodata _ cell (by omega) hcell),
      markNoData_eq_fin g2 (i : ℤ) ((j : ℤ) - 1) ((((j : ℤ) - 1 : ℤ) : ℚ) * cell)
        (hg2 _ _ (by omega) (by omega) (by omega) (by omega))
        (ramp_ne_nodata _ cell (by omega) hcell),
      markNoData_eq_fin g2 (i : ℤ) ((j : ℤ) + 1) ((((j : ℤ) + 1 : ℤ) : ℚ) * cell)
        (hg2 _ _ (by omega) (by omega) (by omega) (by omega))
        (ramp_ne_nodata _ cell (by omega) hcell)]
    simp only [fv_smul_fin, fv_fin_add_fin]
    rw [show -4 / cell ^ 2 * (((j : ℤ) : ℚ) * cell) +
        1 / cell ^ 2 * (((j : ℤ) : ℚ) * cell) +
        1 / cell ^ 2 * (((j : ℤ) : ℚ) * cell) +
        1 / cell ^ 2 * ((((j : ℤ) - 1 : ℤ) : ℚ) * cell) +
        1 / cell ^ 2 * ((((j : ℤ) + 1 : ℤ) : ℚ) * cell) = 0 from by
      push_cast
      ring]
    rfl
  · simp only [tpiOut]
    rw [if_neg (show ¬(g1 (iT : ℤ) (jT : ℤ) = FV.fin NODATA) from by
      rw [hg1 _ _ (by omega) (by omega) (by omega) (by omega)]
      simp [FV.fin.injEq, hcv])]
    have helev : tpiElevAt g1 R C r B iT jT = FV.fin cval := by
      rw [tpi_elev_eq g1 R C r B iT jT hB hiTR hjTC,
        markNoData_eq_fin g1 (iT : ℤ) (jT : ℤ) cval
          (hg1 _ _ (by omega) (by omega) (by omega) (by omega)) hcv]
    have hmean : tpiMeanAt g1 R C r B iT jT = FV.fin cval := by
      rw [tpiMeanAt_clamped g1 R C r B iT jT hB hiTR]
      have hterm : ∀ d ∈ annulus r,
          FV.smul (1 / (annCount r : ℚ))
            (markNoData g1 (iclamp R ((iT : ℤ) + d.1))
              (iclamp C ((jT : ℤ) + d.2)))
          = FV.fin ((1 / (annCount r : ℚ)) * cval) := by
        intro d hd
        obtain ⟨hb1, hb2, hb3, hb4, -, -⟩ := annulus_mem_bounds r d hd
        have hrw : iclamp R ((iT : ℤ) + d.1) = (iT : ℤ) + d.1 := by
          simp only [iclamp]
          omega
        have hcw : iclamp C ((jT : ℤ) + d.2) = (jT : ℤ) + d.2 := by
          simp only [iclamp]
          omega
        rw [hrw, hcw,
          markNoData_eq_fin g1 _ _ cval
            (hg1 _ _ (by omega) (by omega) (by omega) (by omega)) hcv,
          fv_smul_fin]
      rw [Finset.sum_congr rfl hterm, fv_sum_fin, Finset.sum_const,
        nsmul_eq_mul]
      congr 1
      rw [hcard]
      field_simp
    simp only [tpiRawAt]
    rw [helev, hmean, fv_fin_sub_fin, sub_self]
    rfl
  · simp only [tpiOut]
    rw [if_neg (show ¬(g2 (iT : ℤ) (jT : ℤ) = FV.fin NODATA) from by
      rw [hg2 _ _ (by omega) (by omega) (by omega) (by omega)]
      simp only [FV.fin.injEq]
      exact ramp_ne_nodata _ cell (by omega) hcell)]
    have helev2 : tpiElevAt g2 R C r B iT jT = FV.fin (((jT : ℤ) : ℚ) * cell) := by
      rw [tpi_elev_eq g2 R C r B iT jT hB hiTR hjTC,
        markNoData_eq_fin g2 (iT : ℤ) (jT : ℤ) (((jT : ℤ) : ℚ) * cell)
          (hg2 _ _ (by omega) (by omega) (by omega) (by omega))
          (ramp_ne_nodata _ cell (by omega) hcell)]
    have hmean2 : tpiMeanAt g2 R C r B iT jT = FV.fin (((jT : ℤ) : ℚ) * cell) := by
      rw [tpiMeanAt_clamped g2 R C r B iT jT hB hiTR]
      have hterm2 : ∀ d ∈ annulus r,
          FV.smul (1 / (annCount r : ℚ))
            (markNoData g2 (iclamp R ((iT : ℤ) + d.1))
              (iclamp C ((jT : ℤ) + d.2)))
          = FV.fin ((1 / (annCount r : ℚ)) *
              ((((jT : ℤ) + d.2 : ℤ) : ℚ) * cell)) := by
        intro d hd
        obtain ⟨hb1, hb2, hb3, hb4, -, -⟩ := annulus_mem_bounds r d hd
        have hrw : iclamp R ((iT : ℤ) + d.1) = (iT : ℤ) + d.1 := by
          simp only [iclamp]
          omega
        have hcw : iclamp C ((jT : ℤ) + d.2) = (jT : ℤ) + d.2 := by
          simp only [iclamp]
          omega
        rw [hrw, hcw,
          markNoData_eq_fin g2 _ _ ((((jT : ℤ) + d.2 : ℤ) : ℚ) * cell)
            (hg2 _ _ (by omega) (by omega) (by omega) (by omega))
            (ramp_ne_nodata _ cell (by omega) hcell),
          fv_smul_fin]
      rw [Finset.sum_congr rfl hterm2, fv_sum_fin]
      congr 1
      have hsplit : ∀ d ∈ annulus r,
          (1 / (annCount r : ℚ)) * ((((jT : ℤ) + d.2 : ℤ) : ℚ) * cell)
          = (1 / (annCount r : ℚ)) * cell * ((jT : ℤ) : ℚ) +
            (1 / (annCount r : ℚ)) * cell * ((d.2 : ℤ) : ℚ) := by
        intro d hd
        push_cast
        ring
      rw [Finset.sum_congr rfl hsplit, Finset.sum_add_distrib,
        Finset.sum_const, ← Finset.mul_sum]
      have hz : (∑ d ∈ annulus r, ((d.2 : ℤ) : ℚ)) = 0 := by
        have h4 := congrArg (fun z : ℤ => (z : ℚ)) (annulus_sum_snd_zero r)
        push_cast at h4
        simpa using h4
      rw [hz, mul_zero, add_zero, nsmul_eq_mul, hcard]
      field_simp
      ring
    simp only [tpiRawAt]
    rw [helev2, hmean2, fv_fin_sub_fin, sub_self]
    rfl

/-- Witness for C9 on a 5×5 grid: constant 7 and the unit ramp,
stripe height 2, TPI radius 1, evaluated at the centre pixel. -/
theorem flat_ramp_interior_zero_witness :
    curvOut gConst7 5 5 1 2 2 2 = FV.fin 0 ∧
    curvOut gRamp 5 5 1 2 2 2 = FV.fin 0 ∧
    tpiOut gConst7 5 5 1 2 2 2 = FV.fin 0 ∧
    tpiOut gRamp 5 5 1 2 2 2 = FV.fin 0 :=
  flat_ramp_interior_zero gConst7 gRamp 5 5 2 1 1 7 2 2 2 2
    (by norm_num) (by norm_num) (by norm_num) (by norm_num [NODATA])
    (fun a b _ _ _ _ => rfl)
    (fun a b _ _ _ _ => by simp [gRamp])
    (by norm_num) (by norm_num) (by norm_num) (by norm_num)
    (by norm_num) (by norm_num) (by norm_num) (by norm_num)

/-- Clamping an offset position stays in bounds and never increases the
squared offset. -/
theorem iclamp_offset_bounds (n i : ℕ) (dy : ℤ) (hi : i < n) :
    0 ≤ iclamp n ((i : ℤ) + dy) ∧ iclamp n ((i : ℤ) + dy) < n ∧
    (iclamp n ((i : ℤ) + dy) - (i : ℤ)) ^ 2 ≤ dy ^ 2 := by
  have h1 : 0 ≤ iclamp n ((i : ℤ) + dy) ∧ iclamp n ((i : ℤ) + dy) < n ∧
      ((0 ≤ dy → 0 ≤ iclamp n ((i : ℤ) + dy) - (i : ℤ) ∧
        iclamp n ((i : ℤ) + dy) - (i : ℤ) ≤ dy) ∧
       (dy ≤ 0 → dy ≤ iclamp n ((i : ℤ) + dy) - (i : ℤ) ∧
        iclamp n ((i : ℤ) + dy) - (i : ℤ) ≤ 0)) := by
    simp only [iclamp]
    omega
  obtain ⟨ha, hb, hc, hd⟩ := h1
  refine ⟨ha, hb, ?_⟩
  rcases le_or_lt 0 dy with h | h
  · obtain ⟨h2, h3⟩ := hc h
    nlinarith
  · obtain ⟨h2, h3⟩ := hd h.le
    nlinarith

/-- Clamped indices always land inside `[0, n)` when `n` is positive. -/
theorem iclamp_bounds (n x : ℤ) (hn : 0 < n) :
    0 ≤ iclamp n x ∧ iclamp n x < n := by
  simp only [iclamp]
  omega

/-- `markNoData` at a finite-valued cell is either that value or NaN. -/
theorem markNoData_fin_or_nan (g : Grid ℚ) (a b : ℤ) (q : ℚ)
    (hq : g a b = FV.fin q) :
    markNoData g a b = FV.fin q ∨ markNoData g a b = FV.nan := by
  unfold markNoData
  split_ifs with h
  · exact Or.inr rfl
  · exact Or.inl hq

/-- On an everywhere-finite raster, a NaN delivered by a clamped marked
access exposes an in-bounds NoData source pixel no farther away than the
requested offset. -/
theorem clamped_access_nan (g : Grid ℚ) (R C : ℕ) (i j : ℕ)
    (u v dy dx : ℤ) (hu : u = (i : ℤ) + dy) (hv : v = (j : ℤ) + dx)
    (hi : i < R) (hj : j < C)
    (hfin : ∀ a b : ℤ, 0 ≤ a → a < R → 0 ≤ b → b < C →
      ∃ q, g a b = FV.fin q)
    (hnan : markNoData g (iclamp R u) (iclamp C v) = FV.nan) :
    ∃ dy2 dx2 : ℤ, dy2 ^ 2 + dx2 ^ 2 ≤ dy ^ 2 + dx ^ 2 ∧
      0 ≤ (i : ℤ) + dy2 ∧ (i : ℤ) + dy2 < R ∧
      0 ≤ (j : ℤ) + dx2 ∧ (j : ℤ) + dx2 < C ∧
      g ((i : ℤ) + dy2) ((j : ℤ) + dx2) = FV.fin NODATA := by
  subst hu hv
  obtain ⟨ha1, ha2, ha3⟩ := iclamp_offset_bounds R i dy hi
  obtain ⟨hb1, hb2, hb3⟩ := iclamp_offset_bounds C j dx hj
  set u2 := iclamp R ((i : ℤ) + dy) with hu2
  set v2 := iclamp C ((j : ℤ) + dx) with hv2
  obtain ⟨q, hq⟩ := hfin u2 v2 ha1 ha2 hb1 hb2
  have hnd : g u2 v2 = FV.fin NODATA := by
    by_cases hc : g u2 v2 = FV.fin NODATA
    · exact hc
    · unfold markNoData at hnan
      rw [if_neg hc, hq] at hnan
      exact absurd hnan (by simp)
  refine ⟨u2 - (i : ℤ), v2 - (j : ℤ), by linarith,
    by omega, by omega, by omega, by omega, ?_⟩
  have heq1 : (i : ℤ) + (u2 - (i : ℤ)) = u2 := by ring
  have heq2 : (j : ℤ) + (v2 - (j : ℤ)) = v2 := by ring
  rw [heq1, heq2]
  exact hnd

set_option maxHeartbeats 1600000 in
/-- C10: on an everywhere-finite input raster, the NaN mask that
curvature and TPI re-mark as the NoData sentinel before writing holds
at a pixel exactly when some in-bounds source pixel inside the kernel
footprint is NoData — the Laplacian cross (the disc of radius 1) for
curvature, and the disc of radius `r` for TPI (its own pixel through
the explicit source-NoData overwrite of line 383, the annulus through
NaN propagation in the convolution); whenever the mask holds the
written value is the sentinel.  So each output's NoData region is the
input NoData region dilated by the kernel radius. -/
theorem nodata_dilation (g : Grid ℚ) (R C B : ℕ) (cell : ℚ) (r : ℕ)
    (i j : ℕ) (hB : 0 < B) (hi : i < R) (hj : j < C)
    (hfin : ∀ a b : ℤ, 0 ≤ a → a < R → 0 ≤ b → b < C →
      ∃ q, g a b = FV.fin q) :
    ((curvConvAt g R C cell B i j).isNan = true ↔
      ∃ dy dx : ℤ, dy ^ 2 + dx ^ 2 ≤ 1 ∧
        0 ≤ (i : ℤ) + dy ∧ (i : ℤ) + dy < R ∧
        0 ≤ (j : ℤ) + dx ∧ (j : ℤ) + dx < C ∧
        g ((i : ℤ) + dy) ((j : ℤ) + dx) = FV.fin NODATA) ∧
    ((curvConvAt g R C cell B i j).isNan = true →
      curvOut g R C cell B i j = FV.fin NODATA) ∧
    ((g (i : ℤ) (j : ℤ) = FV.fin NODATA ∨
        (tpiRawAt g R C r B i j).isNan = true) ↔
      ∃ dy dx : ℤ, dy ^ 2 + dx ^ 2 ≤ (r : ℤ) ^ 2 ∧
        0 ≤ (i : ℤ) + dy ∧ (i : ℤ) + dy < R ∧
        0 ≤ (j : ℤ) + dx ∧ (j : ℤ) + dx < C ∧
        g ((i : ℤ) + dy) ((j : ℤ) + dx) = FV.fin NODATA) ∧
    ((g (i : ℤ) (j : ℤ) = FV.fin NODATA ∨
        (tpiRawAt g R C r B i j).isNan = true) →
      tpiOut g R C r B i j = FV.fin NODATA) := by
  have hR0 : (0 : ℤ) < R := by omega
  have hC0 : (0 : ℤ) < C := by omega
  refine ⟨⟨?_, ?_⟩, ?_, ⟨?_, ?_⟩, ?_⟩
  · -- curvature mask implies a NoData pixel in the cross
    intro hnan
    rw [curvConvAt_clamped g R C B cell i j hB hi] at hnan
    have hfx : ∀ a b : ℤ,
        ¬ markNoData g (iclamp R a) (iclamp C b) = FV.nan →
        ∃ p, markNoData g (iclamp R a) (iclamp C b) = FV.fin p := by
      intro a b hnn
      obtain ⟨hb1, hb2⟩ := iclamp_bounds R a hR0
      obtain ⟨hb3, hb4⟩ := iclamp_bounds C b hC0
      obtain ⟨p, hp⟩ := hfin _ _ hb1 hb2 hb3 hb4
      rcases markNoData_fin_or_nan g _ _ p hp with hh | hh
      · exact ⟨p, hh⟩
      · exact absurd hh hnn
    by_cases h0 : markNoData g (iclamp R (i : ℤ)) (iclamp C (j : ℤ))
        = FV.nan
    · obtain ⟨dy2, dx2, hs, b1, b2, b3, b4, hnd⟩ :=
        clamped_access_nan g R C i j (i : ℤ) (j : ℤ) 0 0
          (by ring) (by ring) hi hj hfin h0
      refine ⟨dy2, dx2, ?_, b1, b2, b3, b4, hnd⟩
      nlinarith
    by_cases h1 : markNoData g (iclamp R ((i : ℤ) - 1)) (iclamp C (j : ℤ))
        = FV.nan
    · obtain ⟨dy2, dx2, hs, b1, b2, b3, b4, hnd⟩ :=
        clamped_access_nan g R C i j ((i : ℤ) - 1) (j : ℤ) (-1) 0
          (by ring) (by ring) hi hj hfin h1
      refine ⟨dy2, dx2, ?_, b1, b2, b3, b4, hnd⟩
      nlinarith
    by_cases h2 : markNoData g (iclamp R ((i : ℤ) + 1)) (iclamp C (j : ℤ))
        = FV.nan
    · obtain ⟨dy2, dx2, hs, b1, b2, b3, b4, hnd⟩ :=
        clamped_access_nan g R C i j ((i : ℤ) + 1) (j : ℤ) 1 0
          (by ring) (by ring) hi hj hfin h2
      refine ⟨dy2, dx2, ?_, b1, b2, b3, b4, hnd⟩
      nlinarith
    by_cases h3 : markNoData g (iclamp R (i : ℤ)) (iclamp C ((j : ℤ) - 1))
        = FV.nan
    · obtain ⟨dy2, dx2, hs, b1, b2, b3, b4, hnd⟩ :=
        clamped_access_nan g R C i j (i : ℤ) ((j : ℤ) - 1) 0 (-1)
          (by ring) (by ring) hi hj hfin h3
      refine ⟨dy2, dx2, ?_, b1, b2, b3, b4, hnd⟩
      nlinarith
    by_cases h4 : markNoData g (iclamp R (i : ℤ)) (iclamp C ((j : ℤ) + 1))
        = FV.nan
    · obtain ⟨dy2, dx2, hs, b1, b2, b3, b4, hnd⟩ :=
        clamped_access_nan g R C i j (i : ℤ) ((j : ℤ) + 1) 0 1
          (by ring) (by ring) hi hj hfin h4
      refine ⟨dy2, dx2, ?_, b1, b2, b3, b4, hnd⟩
      nlinarith
    obtain ⟨p0, hp0⟩ := hfx (i : ℤ) (j : ℤ) h0
    obtain ⟨p1, hp1⟩ := hfx ((i : ℤ) - 1) (j : ℤ) h1
    obtain ⟨p2, hp2⟩ := hfx ((i : ℤ) + 1) (j : ℤ) h2
    obtain ⟨p3, hp3⟩ := hfx (i : ℤ) ((j : ℤ) - 1) h3
    obtain ⟨p4, hp4⟩ := hfx (i : ℤ) ((j : ℤ) + 1) h4
    simp only [hp0, hp1, hp2, hp3, hp4, fv_smul_fin, fv_fin_add_fin] at hnan
    exact absurd hnan (by simp [FV.isNan])
  · -- a NoData pixel in the cross makes the convolution NaN
    rintro ⟨dy, dx, hsq, b1, b2, b3, b4, hnd⟩
    rw [curvConvAt_clamped g R C B cell i j hB hi]
    have hdy2 : dy ^ 2 ≤ 1 := by nlinarith [sq_nonneg dx]
    have hdx2 : dx ^ 2 ≤ 1 := by nlinarith [sq_nonneg dy]
    have hdyl : -1 ≤ dy := by nlinarith [sq_nonneg (dy + 1)]
    have hdyu : dy ≤ 1 := by nlinarith [sq_nonneg (dy - 1)]
    have hdxl : -1 ≤ dx := by nlinarith [sq_nonneg (dx + 1)]
    have hdxu : dx ≤ 1 := by nlinarith [sq_nonneg (dx - 1)]
    have h5 : (dy = 0 ∧ dx = 0) ∨ (dy = -1 ∧ dx = 0) ∨ (dy = 1 ∧ dx = 0) ∨
        (dy = 0 ∧ dx = -1) ∨ (dy = 0 ∧ dx = 1) := by
      interval_cases dy <;> interval_cases dx <;> norm_num at hsq ⊢
    have hjc : iclamp C (j : ℤ) = (j : ℤ) :=
      iclamp_eq_self C j (by positivity) (by exact_mod_cast hj)
    have hic : iclamp R (i : ℤ) = (i : ℤ) :=
      iclamp_eq_self R i (by positivity) (by exact_mod_cast hi)
    rcases h5 with ⟨e1, e2⟩ | ⟨e1, e2⟩ | ⟨e1, e2⟩ | ⟨e1, e2⟩ | ⟨e1, e2⟩ <;>
      subst e1 <;> subst e2
    · have hmd : markNoData g (iclamp R (i : ℤ)) (iclamp C (j : ℤ))
          = FV.nan := by
        rw [hic, hjc]
        refine markNoData_nodata g _ _ ?_
        have ha : (i : ℤ) + 0 = (i : ℤ) := by ring
        have hb : (j : ℤ) + 0 = (j : ℤ) := by ring
        rw [ha, hb] at hnd
        exact hnd
      rw [hmd, fv_smul_nan, fv_nan_add, fv_nan_add, fv_nan_add, fv_nan_add]
      rfl
    · have hmd : markNoData g (iclamp R ((i : ℤ) - 1)) (iclamp C (j : ℤ))
          = FV.nan := by
        have he : iclamp R ((i : ℤ) - 1) = (i : ℤ) + (-1) := by
          rw [iclamp_eq_self R ((i : ℤ) - 1) (by omega) (by omega)]
          ring
        have hb : (j : ℤ) + 0 = (j : ℤ) := by ring
        rw [hb] at hnd
        rw [he, hjc]
        exact markNoData_nodata g _ _ hnd
      rw [hmd, fv_smul_nan, fv_add_nan, fv_nan_add, fv_nan_add, fv_nan_add]
      rfl
    · have hmd : markNoData g (iclamp R ((i : ℤ) + 1)) (iclamp C (j : ℤ))
          = FV.nan := by
        have he : iclamp R ((i : ℤ) + 1) = (i : ℤ) + 1 :=
          iclamp_eq_self R ((i : ℤ) + 1) (by omega) (by omega)
        have hb : (j : ℤ) + 0 = (j : ℤ) := by ring
        rw [hb] at hnd
        rw [he, hjc]
        exact markNoData_nodata g _ _ hnd
      rw [hmd, fv_smul_nan, fv_add_nan, fv_nan_add, fv_nan_add]
      rfl
    · have hmd : markNoData g (iclamp R (i : ℤ)) (iclamp C ((j : ℤ) - 1))
          = FV.nan := by
        have he : iclamp C ((j : ℤ) - 1) = (j : ℤ) + (-1) := by
          rw [iclamp_eq_self C ((j : ℤ) - 1) (by omega) (by omega)]
          ring
        have ha : (i : ℤ) + 0 = (i : ℤ) := by ring
        rw [ha] at hnd
        rw [he, hic]
        exact markNoData_nodata g _ _ hnd
      rw [hmd, fv_smul_nan, fv_add_nan, fv_nan_add]
      rfl
    · have hmd : markNoData g (iclamp R (i : ℤ)) (iclamp C ((j : ℤ) + 1))
          = FV.nan := by
        have he : iclamp C ((j : ℤ) + 1) = (j : ℤ) + 1 :=
          iclamp_eq_self C ((j : ℤ) + 1) (by omega) (by omega)
        have ha : (i : ℤ) + 0 = (i : ℤ) := by ring
        rw [ha] at hnd
        rw [he, hic]
        exact markNoData_nodata g _ _ hnd
      rw [hmd, fv_smul_nan, fv_add_nan]
      rfl
  · -- curvature: the mask forces the sentinel into the output
    intro hnan
    simp only [curvOut]
    rw [if_pos hnan]
  · -- TPI mask implies a NoData pixel in the disc
    intro hmask
    by_cases hown : g (i : ℤ) (j : ℤ) = FV.fin NODATA
    · refine ⟨0, 0, by nlinarith [sq_nonneg (r : ℤ)], by omega, by omega,
        by omega, by omega, ?_⟩
      simpa using hown
    rcases hmask with hmask | hraw
    · exact absurd hmask hown
    obtain ⟨q, hq⟩ := hfin (i : ℤ) (j : ℤ) (by positivity)
      (by exact_mod_cast hi) (by positivity) (by exact_mod_cast hj)
    have hqne : q ≠ NODATA := fun habs => hown (by rw [hq, habs])
    have helev : tpiElevAt g R C r B i j = FV.fin q := by
      rw [tpi_elev_eq g R C r B i j hB hi hj]
      exact markNoData_eq_fin g _ _ q hq hqne
    by_cases hall : ∀ d ∈ annulus r, ∃ p,
        FV.smul (1 / (annCount r : ℚ))
          (markNoData g (iclamp R ((i : ℤ) + d.1))
            (iclamp C ((j : ℤ) + d.2))) = FV.fin p
    · exfalso
      obtain ⟨p, hp⟩ := fv_sum_fin_of_forall (annulus r) _ hall
      have hmean : tpiMeanAt g R C r B i j = FV.fin p := by
        rw [tpiMeanAt_clamped g R C r B i j hB hi]
        exact hp
      have hrawfin : tpiRawAt g R C r B i j = FV.fin (q - p) := by
        unfold tpiRawAt
        rw [helev, hmean, fv_fin_sub_fin]
      rw [hrawfin] at hraw
      simp [FV.isNan] at hraw
    · push_neg at hall
      obtain ⟨d, hd, hnofin⟩ := hall
      obtain ⟨-, -, -, -, -, hle⟩ := annulus_mem_bounds r d hd
      have hmd : markNoData g (iclamp R ((i : ℤ) + d.1))
          (iclamp C ((j : ℤ) + d.2)) = FV.nan := by
        obtain ⟨ha1, ha2, -⟩ := iclamp_offset_bounds R i d.1 hi
        obtain ⟨hb1, hb2, -⟩ := iclamp_offset_bounds C j d.2 hj
        obtain ⟨p2, hp2⟩ := hfin _ _ ha1 ha2 hb1 hb2
        rcases markNoData_fin_or_nan g _ _ p2 hp2 with hh | hh
        · exact absurd (by rw [hh, fv_smul_fin]) (hnofin _)
        · exact hh
      obtain ⟨dy2, dx2, hs, b1, b2, b3, b4, hnd⟩ :=
        clamped_access_nan g R C i j ((i : ℤ) + d.1) ((j : ℤ) + d.2)
          d.1 d.2 rfl rfl hi hj hfin hmd
      exact ⟨dy2, dx2, le_trans hs hle, b1, b2, b3, b4, hnd⟩
  · -- a NoData pixel in the disc raises the TPI mask
    rintro ⟨dy, dx, hsq, b1, b2, b3, b4, hnd⟩
    by_cases h00 : dy = 0 ∧ dx = 0
    · left
      obtain ⟨e1, e2⟩ := h00
      subst e1
      subst e2
      simpa using hnd
    · right
      have hdmem : (dy, dx) ∈ annulus r := by
        rw [annulus_mem_iff]
        refine ⟨?_, by simpa using hsq⟩
        rcases not_and_or.mp h00 with h | h
        · have h2 : 1 ≤ dy ∨ dy ≤ -1 := by omega
          rcases h2 with h2 | h2 <;> dsimp only <;> nlinarith [sq_nonneg dx]
        · have h2 : 1 ≤ dx ∨ dx ≤ -1 := by omega
          rcases h2 with h2 | h2 <;> dsimp only <;> nlinarith [sq_nonneg dy]
      have hmean : tpiMeanAt g R C r B i j = FV.nan := by
        rw [tpiMeanAt_clamped g R C r B i j hB hi]
        apply fv_sum_nan _ _ (dy, dx) hdmem
        have he1 : iclamp R ((i : ℤ) + dy) = (i : ℤ) + dy :=
          iclamp_eq_self _ _ b1 b2
        have he2 : iclamp C ((j : ℤ) + dx) = (j : ℤ) + dx :=
          iclamp_eq_self _ _ b3 b4
        dsimp only
        rw [he1, he2, markNoData_nodata g _ _ hnd, fv_smul_nan]
      have hraw : tpiRawAt g R C r B i j = FV.nan := by
        unfold tpiRawAt
        rw [hmean, fv_sub_nan]
      rw [hraw]
      rfl
  · -- TPI: the mask forces the sentinel into the output
    intro hmask
    by_cases hown : g (i : ℤ) (j : ℤ) = FV.fin NODATA
    · simp only [tpiOut]
      rw [if_pos hown]
      rfl
    · rcases hmask with h | hraw
      · exact absurd h hown
      · simp only [tpiOut]
        rw [if_neg hown, if_pos hraw]

/-- Witness for C10 on the grid with NoData at `(1, 1)`, evaluated at
the neighbouring pixel `(0, 1)` of a 3×3 raster with stripe height 2,
cell size 1 and TPI radius 1. -/
theorem nodata_dilation_witness :
    ((curvConvAt gNd 3 3 1 2 0 1).isNan = true ↔
      ∃ dy dx : ℤ, dy ^ 2 + dx ^ 2 ≤ 1 ∧
        0 ≤ (0 : ℤ) + dy ∧ (0 : ℤ) + dy < 3 ∧
        0 ≤ (1 : ℤ) + dx ∧ (1 : ℤ) + dx < 3 ∧
        gNd ((0 : ℤ) + dy) ((1 : ℤ) + dx) = FV.fin NODATA) ∧
    ((curvConvAt gNd 3 3 1 2 0 1).isNan = true →
      curvOut gNd 3 3 1 2 0 1 = FV.fin NODATA) ∧
    ((gNd (0 : ℤ) (1 : ℤ) = FV.fin NODATA ∨
        (tpiRawAt gNd 3 3 1 2 0 1).isNan = true) ↔
      ∃ dy dx : ℤ, dy ^ 2 + dx ^ 2 ≤ ((1 : ℕ) : ℤ) ^ 2 ∧
        0 ≤ (0 : ℤ) + dy ∧ (0 : ℤ) + dy < 3 ∧
        0 ≤ (1 : ℤ) + dx ∧ (1 : ℤ) + dx < 3 ∧
        gNd ((0 : ℤ) + dy) ((1 : ℤ) + dx) = FV.fin NODATA) ∧
    ((gNd (0 : ℤ) (1 : ℤ) = FV.fin NODATA ∨
        (tpiRawAt gNd 3 3 1 2 0 1).isNan = true) →
      tpiOut gNd 3 3 1 2 0 1 = FV.fin NODATA) :=
  nodata_dilation gNd 3 3 2 1 1 0 1 (by norm_num) (by norm_num)
    (by norm_num)
    (fun a b _ _ _ _ => by
      simp only [gNd]
      split_ifs
      · exact ⟨NODATA, rfl⟩
      · exact ⟨100, rfl⟩)

/-- C7 (amended): a negative TPI radius is not validated anywhere: for
every negative radius and non-empty raster, `compute_tpi`'s first I/O
action (creating the output raster) happens unconditionally, and the
run then fails inside the convolution with a runtime shape error, not a
configuration rejection.  Radius `0` raises no error either: scipy
excludes the kernel's single NaN weight (`0/0`) from its footprint, so
the annular mean is the empty sum 0 and every valid pixel's elevation
is written unchanged.  The stripe height is the hardcoded constant 1024
and can never be `≤ 0`. -/
theorem radius_validation_amended (r : ℤ) (R : ℕ) (g : Grid ℚ)
    (RR CC B i j : ℕ) (q : ℚ) (hr : r < 0) (hR : 0 < R)
    (hB : 0 < B) (hi : i < RR) (hj : j < CC)
    (hq : g (i : ℤ) (j : ℤ) = FV.fin q) (hqne : q ≠ NODATA) :
    (tpiRun r R).1.head? = some TpiEv.create ∧
    TpiEv.create ∈ (tpiRun r R).1 ∧
    (tpiRun r R).1 ≠ [] ∧
    (tpiRun r R).2 = Except.error TpiErr.badKernelShape ∧
    (tpiRun 0 R).2 = Except.ok () ∧
    annulus 0 = ∅ ∧
    tpiMeanAt g RR CC 0 B i j = FV.fin 0 ∧
    tpiOut g RR CC 0 B i j = FV.fin q ∧
    blockSize = 1024 ∧ 0 < blockSize := by
  have hog : ogridLen r = 0 := by
    unfold ogridLen
    omega
  have hneg : (tpiRun r R).1.head? = some TpiEv.create ∧
      TpiEv.create ∈ (tpiRun r R).1 ∧
      (tpiRun r R).1 ≠ [] ∧
      (tpiRun r R).2 = Except.error TpiErr.badKernelShape := by
    unfold tpiRun
    rw [if_neg (by omega), if_pos hog]
    exact ⟨rfl, by simp, by simp, rfl⟩
  have hzero : (tpiRun 0 R).2 = Except.ok () := by
    unfold tpiRun
    rw [if_neg (by omega), if_neg (by decide)]
  have hann : annulus 0 = ∅ := by
    rw [Finset.eq_empty_iff_forall_not_mem]
    intro d hd
    rw [annulus_mem_iff] at hd
    obtain ⟨h1, h2⟩ := hd
    norm_num at h2
    linarith
  have hmean : tpiMeanAt g RR CC 0 B i j = FV.fin 0 := by
    unfold tpiMeanAt
    rw [hann, Finset.sum_empty]
    rfl
  have helev : tpiElevAt g RR CC 0 B i j = FV.fin q := by
    rw [tpi_elev_eq g RR CC 0 B i j hB hi hj]
    exact markNoData_eq_fin g _ _ q hq hqne
  have hraw : tpiRawAt g RR CC 0 B i j = FV.fin q := by
    unfold tpiRawAt
    rw [helev, hmean, fv_fin_sub_fin, sub_zero]
  have hown : ¬ g (i : ℤ) (j : ℤ) = FV.fin NODATA := by
    rw [hq]
    intro habs
    apply hqne
    injection habs
  have hout : tpiOut g RR CC 0 B i j = FV.fin q := by
    simp only [tpiOut]
    rw [if_neg hown, hraw]
    rfl
  exact ⟨hneg.1, hneg.2.1, hneg.2.2.1, hneg.2.2.2, hzero, hann, hmean,
    hout, rfl, by norm_num [blockSize]⟩

/-- Witness for the amended C7 at radius `-2` on 7 rows, with the
radius-0 clauses evaluated on the constant-7 grid at pixel `(0, 0)` of
a 3×3 raster with stripe height 2. -/
theorem radius_validation_amended_witness :
    (tpiRun (-2) 7).1.head? = some TpiEv.create ∧
    TpiEv.create ∈ (tpiRun (-2) 7).1 ∧
    (tpiRun (-2) 7).1 ≠ [] ∧
    (tpiRun (-2) 7).2 = Except.error TpiErr.badKernelShape ∧
    (tpiRun 0 7).2 = Except.ok () ∧
    annulus 0 = ∅ ∧
    tpiMeanAt gConst7 3 3 0 2 0 0 = FV.fin 0 ∧
    tpiOut gConst7 3 3 0 2 0 0 = FV.fin 7 ∧
    blockSize = 1024 ∧ 0 < blockSize :=
  radius_validation_amended (-2) 7 gConst7 3 3 2 0 0 7
    (by norm_num) (by norm_num) (by norm_num) (by norm_num) (by norm_num)
    rfl (by norm_num [NODATA])

end ArqDem
